import Mathlib

/-!
# A verification development for the `di` container of blastbao/di-demo

The Go package `di` (src/di/container.go) is embedded shallowly:

* Go `interface{}` values are `Val`s: the nil interface, a typed pointer
  (identity = element type and address, address `0` being the nil pointer) or
  some other typed value.  Go's `==` on the values used here is Lean equality.
* Go `error` values are `GoError`s (or `none` for a nil error).
* The two maps of `Container` are association lists with unique keys
  (`Registry`); `Registry.get` is a map read, `Registry.set` a map write.
* A factory `func() (interface{}, error)` that returns and does not call back
  into the container is a function on the part of the program state it can
  reach (`σ`): it returns its pair and the new state.  The registries of the
  container are not part of `σ`.
* A factory that calls `SetSingleton` or `SetPrototype` on its own container
  while it runs is a `Reentrant.Closure`; the methods for such factories are in
  the namespace `Reentrant`, and they agree with the methods above on factories
  that make no registration (`reentrant_Ensure_ofPlain`).
* The assignability that `reflect.Value.Set` checks is Go's own and not part of
  the repository: between different types it is the parameter `Assignability`.
* Every method is a function on `State`, which holds the container, the
  ambient state `σ` and a log of the factory invocations made so far.  The
  log is ghost state: each run of the Go expression `factory()` appends one
  entry to it.
* `Ensure` walks the fields of the struct its argument points to.  The calls
  into package `reflect` that can panic are modelled by the outcome
  `Outcome.panic`.
* `String` yields its lines or `none` for a panic; the order in which the maps
  are walked is the order of the association lists, and the address printed
  for the loop variable is a parameter.
* For concurrent use each method is the list of its steps on the mutex and on
  the maps, and goroutines interleave these steps (`Goroutines`).
-/

namespace DI

/-! ## Values, errors, types -/

/-- A Go `interface{}` value. -/
inductive Val where
  /-- The nil interface value. -/
  | nil : Val
  /-- A pointer of type `*elem`; `addr = 0` is the nil pointer of that type. -/
  | pointer (elem : String) (addr : Nat) : Val
  /-- A value of a non-pointer type `typ`. -/
  | scalar (typ : String) (bits : Nat) : Val
  deriving DecidableEq, Repr

/-- The name of the dynamic type of a non-nil interface value
(`reflect.TypeOf(v).String()`); `none` for the nil interface. -/
def Val.typeName : Val → Option String
  | .nil => none
  | .pointer elem _ => some ("*" ++ elem)
  | .scalar typ _ => some typ

/-- A Go `error` value that is not nil. -/
inductive GoError where
  /-- The package-level variable `ErrFactoryNotFound`. -/
  | ErrFactoryNotFound : GoError
  /-- A value made by `errors.New(msg)` inside package `di`. -/
  | errorString (msg : String) : GoError
  /-- Any other error value, made by the application (for example by a factory). -/
  | custom (id : Nat) (msg : String) : GoError
  deriving DecidableEq, Repr

/-- The method `Error()` of an error value. -/
def GoError.Error : GoError → String
  | .ErrFactoryNotFound => "factory not found"
  | .errorString msg => msg
  | .custom _ msg => msg

/-- The declared type of a struct field. -/
inductive GoType where
  /-- A type other than `interface{}`, given by its name (`"*sql.DB"`, `"[]int"`,
  `"io.Reader"`, ...). -/
  | named (name : String) : GoType
  /-- The type `interface{}`. -/
  | emptyInterface : GoType
  deriving DecidableEq, Repr

/-- The assignability of Go between two different types, as `reflect.Value.Set` applies it:
identical underlying types when one of the two types is not a named type, a value that
implements the interface type of the slot, a channel taken for a directed channel.
Package `reflect` and the types of the program are not part of the repository, so the
relation is a parameter: every theorem that does not fix it holds for each such relation. -/
class Assignability where
  /-- Whether a value whose type has the name `valueType` may be stored in a slot whose
  type has the different name `slotType`. -/
  assignable : (valueType slotType : String) → Bool

/-- A program in which no value is assignable to a slot of another type than its own,
`interface{}` apart: the demo, whose types are `*sql.DB` and `*demo.B`. -/
instance nominalTypes : Assignability where
  assignable := fun _ _ => false

/-- Whether a non-nil value `v` may be stored by `reflect.Value.Set` in a slot of
declared type `t`: `t` is `interface{}`, or the types are identical, or Go lets values of
the type of `v` be assigned to `t`. -/
def assignableTo [Assignability] (v : Val) (t : GoType) : Bool :=
  match t with
  | .emptyInterface => true
  | .named name =>
    match v.typeName with
    | none => false
    | some valueType => valueType == name || Assignability.assignable valueType name

/-! ## Registries (Go maps keyed by string) -/

/-- A Go `map[string]α`: an association list in which every key occurs once. -/
abbrev Registry (α : Type) := List (String × α)

/-- The map read `v, ok := m[name]`. -/
def Registry.get {α : Type} : Registry α → String → Option α
  | [], _ => none
  | (k, v) :: rest, name => if k = name then some v else Registry.get rest name

/-- The map write `m[name] = v`: replaces the entry of `name`, or adds one. -/
def Registry.set {α : Type} : Registry α → String → α → Registry α
  | [], name, v => [(name, v)]
  | (k, w) :: rest, name, v =>
    if k = name then (k, v) :: rest else (k, w) :: Registry.set rest name v

/-! ## Container and program state -/

/-- The type `factory = func() (interface{}, error)`, for a factory that returns and makes
no call on the container: a function on the ambient program state `σ`.  (Factories that
call back into the container are `Reentrant.Closure`s.) -/
abbrev Factory (σ : Type) := σ → (Val × Option GoError) × σ

/-- The struct `Container` (its mutex apart). -/
structure Container (σ : Type) where
  singletons : Registry Val
  factories : Registry (Factory σ)

/-- One run of the expression `factory()`: the binding name it was looked up
under and the pair it returned. -/
structure Call where
  name : String
  value : Val
  err : Option GoError
  deriving DecidableEq, Repr

/-- The program state the methods of `Container` act on. -/
structure State (σ : Type) where
  /-- The container `*p`. -/
  container : Container σ
  /-- The rest of the program state, which the factories read and write. -/
  ambient : σ
  /-- Factory invocations so far, oldest first. -/
  calls : List Call

/-- The function `NewContainer()`. -/
def NewContainer (σ : Type) : Container σ :=
  { singletons := [], factories := [] }

/-- The method `SetSingleton(name, singleton)`. -/
def SetSingleton {σ : Type} (name : String) (singleton : Val) (st : State σ) : State σ :=
  { st with container :=
      { st.container with singletons := st.container.singletons.set name singleton } }

/-- The method `SetPrototype(name, factory)`. -/
def SetPrototype {σ : Type} (name : String) (factory : Factory σ) (st : State σ) : State σ :=
  { st with container :=
      { st.container with factories := st.container.factories.set name factory } }

/-- The method `GetSingleton(name)`: the map read `p.singletons[name]`, which yields the nil
interface for a missing key. -/
def GetSingleton {σ : Type} (name : String) (st : State σ) : Val × State σ :=
  (match st.container.singletons.get name with
   | some v => v
   | none => Val.nil, st)

/-- The call `factory()` of a factory found under `name`. -/
def invoke {σ : Type} (name : String) (factory : Factory σ) (st : State σ) :
    (Val × Option GoError) × State σ :=
  let r := factory st.ambient
  (r.1, { st with ambient := r.2, calls := st.calls ++ [⟨name, r.1.1, r.1.2⟩] })

/-- The method `GetPrototype(name)`. -/
def GetPrototype {σ : Type} (name : String) (st : State σ) :
    (Val × Option GoError) × State σ :=
  match st.container.factories.get name with
  | none => ((Val.nil, some GoError.ErrFactoryNotFound), st)
  | some factory => invoke name factory st

/-! ## Tag parsing -/

/-- The pieces of `strings.Split(s, ",")`, on the characters of `s`. -/
def splitComma : List Char → List (List Char)
  | [] => [[]]
  | c :: cs =>
    if c = ',' then [] :: splitComma cs
    else
      match splitComma cs with
      | [] => [[c]]
      | t :: ts => (c :: t) :: ts

/-- The call `strings.Split(tag, ",")`. -/
def Split (tag : String) : List String :=
  (splitComma tag.data).map String.mk

/-- The method `injectName(tag)`. -/
def injectName (tag : String) : String :=
  match Split tag with
  | [] => ""
  | t :: _ => t

/-- The loop of `isSingleton` over the tokens. -/
def isSingletonLoop : List String → Bool
  | [] => true
  | name :: rest => if name = "prototype" then false else isSingletonLoop rest

/-- The method `isSingleton(tag)`. -/
def isSingleton (tag : String) : Bool :=
  isSingletonLoop (Split tag)

/-- The loop of `isPrototype` over the tokens. -/
def isPrototypeLoop : List String → Bool
  | [] => false
  | name :: rest => if name = "prototype" then true else isPrototypeLoop rest

/-- The method `isPrototype(tag)`. -/
def isPrototype (tag : String) : Bool :=
  isPrototypeLoop (Split tag)

/-! ## Consumers and `Ensure` -/

/-- A field of the struct a consumer points to, as package `reflect` shows it. -/
structure Field where
  /-- The field name. -/
  name : String
  /-- Whether the field is exported (an unexported field cannot be set). -/
  exported : Bool
  /-- The declared type. -/
  typ : GoType
  /-- The value of the key `di` in the field tag, `fieldType.Tag.Get("di")`;
  empty when the tag has no such key. -/
  tag : String
  /-- The content of the field, as the interface value it was last set from. -/
  value : Val
  deriving DecidableEq, Repr

/-- The argument `instance` of `Ensure`. -/
inductive Instance where
  /-- A non-nil pointer to a struct with these fields. -/
  | structPointer (fields : List Field) : Instance
  /-- A nil pointer whose element type is a struct with these fields. -/
  | nilStructPointer (fields : List Field) : Instance
  /-- Anything else (the nil interface, a non-pointer, a pointer to a non-struct):
  `Elem()` or `NumField()` panics on it. -/
  | other : Instance
  deriving DecidableEq, Repr

/-- The fields of the struct behind an instance. -/
def Instance.fields : Instance → List Field
  | .structPointer fields => fields
  | .nilStructPointer fields => fields
  | .other => []

/-- The same instance with other field contents. -/
def Instance.withFields : Instance → List Field → Instance
  | .structPointer _, fields => .structPointer fields
  | .nilStructPointer _, fields => .nilStructPointer fields
  | .other, _ => .other

/-- How a call of `Ensure` ends. -/
inductive Outcome where
  /-- It returns `nil`. -/
  | ok : Outcome
  /-- It returns the error `e`. -/
  | error (e : GoError) : Outcome
  /-- It panics inside package `reflect`. -/
  | panic : Outcome
  deriving DecidableEq, Repr

/-- What a call of `Ensure` leaves behind. -/
structure EnsureResult (σ : Type) where
  outcome : Outcome
  /-- The fields of the consumer after the call. -/
  fields : List Field
  state : State σ

/-- Lines 84 to 96 of `Ensure`: the value and error found for one field with tag `tag`
and binding name `diName`. -/
def resolve {σ : Type} (tag diName : String) (st : State σ) :
    (Val × Option GoError) × State σ :=
  let r : Val × State σ :=
    if isSingleton tag then GetSingleton diName st else (Val.nil, st)
  if isPrototype tag then GetPrototype diName r.2 else ((r.1, none), r.2)

/-- The loop of `Ensure` over the fields still to visit.  `addressable` tells whether
`ele` is a valid struct value (it is not when the pointer is nil). -/
def ensureFields {σ : Type} [Assignability] (addressable : Bool) : List Field → State σ → EnsureResult σ
  | [], st => ⟨Outcome.ok, [], st⟩
  | f :: rest, st =>
    let diName := injectName f.tag
    if diName = "" then
      let r := ensureFields addressable rest st
      ⟨r.outcome, f :: r.fields, r.state⟩
    else
      let r := resolve f.tag diName st
      match r.1.2 with
      | some err => ⟨Outcome.error err, f :: rest, r.2⟩
      | none =>
        if r.1.1 = Val.nil then
          ⟨Outcome.error (GoError.errorString (diName ++ " dependency not found")),
            f :: rest, r.2⟩
        else if addressable && f.exported && assignableTo r.1.1 f.typ then
          let r' := ensureFields addressable rest r.2
          ⟨r'.outcome, { f with value := r.1.1 } :: r'.fields, r'.state⟩
        else
          ⟨Outcome.panic, f :: rest, r.2⟩

/-- The method `Ensure(instance)` (lines 65 to 110). -/
def Ensure {σ : Type} [Assignability] (inst : Instance) (st : State σ) : EnsureResult σ :=
  match inst with
  | .structPointer fields => ensureFields true fields st
  | .nilStructPointer fields => ensureFields false fields st
  | .other => ⟨Outcome.panic, [], st⟩

/-! ## The demo program -/

/-- The struct `A` of src/demo/a.go, with the given field contents. -/
def demoA (db0 db1 b0 b1 : Val) : List Field :=
  [ ⟨"Db0", true, GoType.named "*sql.DB", "db", db0⟩,
    ⟨"Db1", true, GoType.named "*sql.DB", "db", db1⟩,
    ⟨"B0", true, GoType.named "*demo.B", "b,prototype", b0⟩,
    ⟨"B1", true, GoType.named "*demo.B", "b,prototype", b1⟩ ]

/-- The function `NewA()`: a pointer to an `A` whose four pointers are nil. -/
def NewA : Instance :=
  Instance.structPointer
    (demoA (Val.pointer "sql.DB" 0) (Val.pointer "sql.DB" 0)
      (Val.pointer "demo.B" 0) (Val.pointer "demo.B" 0))

/-- Modelled from the spec: `demo.NewB` (src/main.go calls it, its file is not among the
sources).  The spec gives the factory of `"b"` as `() -> new B(), nil`: it returns a
pointer to a new `B`.  The ambient state is the number of objects made so far, and the
new object gets the next address. -/
def NewB : Factory Nat :=
  fun allocated => ((Val.pointer "demo.B" (allocated + 1), none), allocated + 1)

/-- The container `main` builds: `NewContainer`, then `SetSingleton("db", db)` and
`SetPrototype("b", ...)`, from a state with `allocated` objects. -/
def mainState (db : Val) (allocated : Nat) : State Nat :=
  SetPrototype "b" NewB
    (SetSingleton "db" db
      { container := NewContainer Nat, ambient := allocated, calls := [] })

/-- Whether `ele`, the struct behind the instance, is a valid value whose fields can be
reached: it is for a non-nil pointer to a struct only. -/
def Instance.addressable : Instance → Bool
  | .structPointer _ => true
  | .nilStructPointer _ => false
  | .other => false

/-- The field takes the factory path of `Ensure`: its binding name is not empty and
`isPrototype` holds of its tag. -/
def Field.prototypePolicy (f : Field) : Bool :=
  decide (injectName f.tag ≠ "") && isPrototype f.tag

/-- The value is a pointer whose address lies above `lo` and not above `hi`. -/
def Val.addrIn (v : Val) (lo hi : Nat) : Prop :=
  ∃ elem addr, v = Val.pointer elem addr ∧ lo < addr ∧ addr ≤ hi

/-- A factory that hands out new objects only.  `mark` reads from the ambient state the
highest address given out so far; an invocation never lowers it, and a non-nil value
returned without error is a pointer to an address above the old mark and not above the
new one. -/
def Allocating {σ : Type} (mark : σ → Nat) (fac : Factory σ) : Prop :=
  ∀ s, mark s ≤ mark (fac s).2 ∧
    ((fac s).1.2 = none → (fac s).1.1 ≠ Val.nil →
      (fac s).1.1.addrIn (mark s) (mark (fac s).2))

/-- A factory that returns one and the same `*demo.B` on every invocation, as
`func() (interface{}, error) { return shared, nil }` does. -/
def sharedB : Factory Nat :=
  fun allocated => ((Val.pointer "demo.B" 1, none), allocated)

/-- The container of the demo with `sharedB` registered under `"b"` in place of the
factory of `main`. -/
def sharedState (db : Val) (allocated : Nat) : State Nat :=
  SetPrototype "b" sharedB
    (SetSingleton "db" db
      { container := NewContainer Nat, ambient := allocated, calls := [] })

/-- A factory that itself reports `ErrFactoryNotFound`, as
`func() (interface{}, error) { return nil, di.ErrFactoryNotFound }` does (or a factory
that hands on the result of another container's `GetPrototype`). -/
def notFoundFactory : Factory Nat :=
  fun allocated => ((Val.nil, some GoError.ErrFactoryNotFound), allocated)

/-- A new container in which `notFoundFactory` is registered under `"b"`. -/
def notFoundState : State Nat :=
  SetPrototype "b" notFoundFactory
    { container := NewContainer Nat, ambient := 0, calls := [] }

/-- A factory that fails with the error `e` and still returns the non-nil value `v`, as
`func() (interface{}, error) { return v, e }` does. -/
def failingFactory (v : Val) (e : GoError) : Factory Nat :=
  fun allocated => ((v, some e), allocated + 1)

/-- The container of the demo with a failing factory registered under `"b"`. -/
def failingState (db v : Val) (e : GoError) (allocated : Nat) : State Nat :=
  SetPrototype "b" (failingFactory v e)
    (SetSingleton "db" db
      { container := NewContainer Nat, ambient := allocated, calls := [] })

/-- The rule for the policy in the words of the spec: the tag selects prototype policy
when the literal token `"prototype"` occurs among the tokens after the first one. -/
def isPrototypeSpec (tag : String) : Bool :=
  decide ("prototype" ∈ (Split tag).tail)

/-! ## Nil pointers -/

/-- The value is nil or as good as nil: the nil interface, or a nil pointer of some type. -/
def Val.isNilEquivalent : Val → Bool
  | .nil => true
  | .pointer _ addr => decide (addr = 0)
  | .scalar _ _ => false

/-- A factory that returns a nil `*demo.B` and no error, as
`func() (interface{}, error) { var b *demo.B; return b, nil }` does. -/
def typedNilFactory : Factory Nat :=
  fun allocated => ((Val.pointer "demo.B" 0, none), allocated)

/-- The container of the demo with `typedNilFactory` registered under `"b"`. -/
def typedNilState (db : Val) (allocated : Nat) : State Nat :=
  SetPrototype "b" typedNilFactory
    (SetSingleton "db" db
      { container := NewContainer Nat, ambient := allocated, calls := [] })

/-! ## The method `String` -/

/-- A call of `SetSingleton` or of `SetPrototype`. -/
inductive Registration (σ : Type) where
  | singleton (name : String) (value : Val) : Registration σ
  | prototype (name : String) (factory : Factory σ) : Registration σ

/-- The state after one registration. -/
def Registration.apply {σ : Type} : Registration σ → State σ → State σ
  | .singleton name value, st => SetSingleton name value st
  | .prototype name factory, st => SetPrototype name factory st

/-- The state after `NewContainer()` and the given registrations, in order. -/
def registered {σ : Type} (ambient : σ) (ops : List (Registration σ)) : State σ :=
  ops.foldl (fun st op => op.apply st)
    { container := NewContainer σ, ambient := ambient, calls := [] }

/-- The name `reflect.TypeOf(item).String()` gives for a value of type `factory`. -/
def factoryTypeName : String := "func() (interface {}, error)"

/-- The verb `%x` applied to a pointer: its address in hexadecimal. -/
def hex (addr : Nat) : String := String.mk (Nat.toDigits 16 addr)

/-- The line `fmt.Sprintf("  %s: %x %s", name, &item, typ)`. -/
def entryLine (name : String) (addr : Nat) (typ : String) : String :=
  "  " ++ name ++ ": " ++ hex addr ++ " " ++ typ

/-- The first loop of `String`, over the singletons still to visit, in the order the map
yields them.  `itemAddr k` is the address of the loop variable `item` when `k` lines are
there.  `reflect.TypeOf(item)` is nil for a nil `item`, and calling `String()` on it
panics: the result is `none` then. -/
def singletonLines (itemAddr : Nat → Nat) :
    Registry Val → List String → Option (List String)
  | [], lines => some lines
  | (name, item) :: rest, lines =>
    match item.typeName with
    | none => none
    | some typ =>
      singletonLines itemAddr rest (lines ++ [entryLine name (itemAddr lines.length) typ])

/-- The second loop of `String`, over the factories still to visit. -/
def factoryLines {σ : Type} (itemAddr : Nat → Nat) :
    Registry (Factory σ) → List String → List String
  | [], lines => lines
  | (name, _) :: rest, lines =>
    factoryLines itemAddr rest
      (lines ++ [entryLine name (itemAddr lines.length) factoryTypeName])

/-- The slice `lines` of `String` before it is joined; `none` when `String` panics. -/
def StringLines {σ : Type} (itemAddr : Nat → Nat) (c : Container σ) :
    Option (List String) :=
  match singletonLines itemAddr c.singletons ["singletons:"] with
  | none => none
  | some lines => some (factoryLines itemAddr c.factories (lines ++ ["factories:"]))

/-- The method `String()`: the lines joined by newlines, or `none` for a panic, and the
state after the call. -/
def ContainerString {σ : Type} (itemAddr : Nat → Nat) (st : State σ) :
    Option String × State σ :=
  ((StringLines itemAddr st.container).map (fun lines => "\n".intercalate lines), st)

/-! ## Goroutines, the mutex and the maps -/

/-- The two maps of a container. -/
inductive MapId where
  | singletons : MapId
  | factories : MapId
  deriving DecidableEq, Repr

/-- What a method does to the mutex and to the maps, step by step.  A map assignment
`m[k] = v` is in progress from `writeBegin` to `writeEnd`. -/
inductive Step where
  /-- The call `p.Lock()`. -/
  | lock : Step
  /-- The call `p.Unlock()`. -/
  | unlock : Step
  | writeBegin (m : MapId) : Step
  | writeEnd (m : MapId) : Step
  /-- A map read `m[k]`. -/
  | read (m : MapId) : Step
  deriving DecidableEq, Repr

/-- The steps of `SetSingleton`: lock, `p.singletons[name] = singleton`, unlock. -/
def SetSingletonSteps : List Step :=
  [Step.lock, Step.writeBegin MapId.singletons, Step.writeEnd MapId.singletons, Step.unlock]

/-- The steps of `SetPrototype`: lock, `p.factories[name] = factory`, unlock. -/
def SetPrototypeSteps : List Step :=
  [Step.lock, Step.writeBegin MapId.factories, Step.writeEnd MapId.factories, Step.unlock]

/-- The steps of `GetSingleton`: the read `p.singletons[name]`, with no lock taken. -/
def GetSingletonSteps : List Step := [Step.read MapId.singletons]

/-- The steps of `GetPrototype`: the read `p.factories[name]`, with no lock taken. -/
def GetPrototypeSteps : List Step := [Step.read MapId.factories]

/-- The steps of `Ensure` on fields with the given tags, when no field fails: for each field
with a binding name the calls of `GetSingleton` and `GetPrototype` its policy asks for. -/
def EnsureSteps : List String → List Step
  | [] => []
  | tag :: rest =>
    (if injectName tag = "" then []
     else (if isSingleton tag then GetSingletonSteps else []) ++
          (if isPrototype tag then GetPrototypeSteps else [])) ++ EnsureSteps rest

/-- Goroutines that share one container: the steps each still has to make, the goroutine
that holds the mutex, the goroutine (if any) with an assignment in progress on each map,
and whether a map was read or written while an assignment to it was in progress. -/
structure Goroutines where
  pending : List (List Step)
  holder : Option Nat
  writingSingletons : Option Nat
  writingFactories : Option Nat
  raced : Bool
  deriving DecidableEq, Repr

/-- The goroutine with an assignment in progress on the map `m`. -/
def Goroutines.writer (g : Goroutines) : MapId → Option Nat
  | .singletons => g.writingSingletons
  | .factories => g.writingFactories

/-- Records who is assigning to the map `m`. -/
def Goroutines.setWriter (g : Goroutines) (m : MapId) (w : Option Nat) : Goroutines :=
  match m with
  | .singletons => { g with writingSingletons := w }
  | .factories => { g with writingFactories := w }

/-- Goroutine `i` makes its next step; `none` when it has no step left or waits for the
mutex. -/
def Goroutines.step (g : Goroutines) (i : Nat) : Option Goroutines :=
  match g.pending[i]? with
  | none => none
  | some [] => none
  | some (a :: rest) =>
    let g1 : Goroutines := { g with pending := g.pending.set i rest }
    match a with
    | .lock => if g.holder = none then some { g1 with holder := some i } else none
    | .unlock => some { g1 with holder := none }
    | .writeBegin m =>
      some ({ g1 with raced := g1.raced || (g.writer m).isSome }.setWriter m (some i))
    | .writeEnd m => some (g1.setWriter m none)
    | .read m => some { g1 with raced := g1.raced || (g.writer m).isSome }

/-- The goroutines make steps in the order of the schedule. -/
def Goroutines.run (g : Goroutines) : List Nat → Option Goroutines
  | [] => some g
  | i :: schedule =>
    match g.step i with
    | none => none
    | some g1 => g1.run schedule

/-- Goroutines about to run the given methods on a container nobody uses yet. -/
def Goroutines.start (methods : List (List Step)) : Goroutines :=
  { pending := methods, holder := none, writingSingletons := none,
    writingFactories := none, raced := false }

/-- All schedules of the given length for two goroutines. -/
def schedules : Nat → List (List Nat)
  | 0 => [[]]
  | n + 1 => (schedules n).map (List.cons 0) ++ (schedules n).map (List.cons 1)

/-! ## Types that are assignable without being identical -/

/-- A program with the named type `di.IntSlice` whose underlying type is `[]int`, and a type
`*demo.File` that implements `io.Reader`: Go lets a `di.IntSlice` be assigned to a `[]int`
and a `*demo.File` to an `io.Reader`. -/
def sliceTypes : Assignability where
  assignable := fun valueType slotType =>
    (valueType == "di.IntSlice" && slotType == "[]int") ||
    (valueType == "*demo.File" && slotType == "io.Reader")

/-! ## Factories that call back into the container

A factory is a closure, and a closure may hold the container it is registered with and
call `SetSingleton` or `SetPrototype` on it while it runs.  The definitions above are the
methods for factories that do not; the definitions of this section are the same methods
for factories that do. -/

namespace Reentrant

/-- A factory that holds the container it is registered with: what it returns and does to
the ambient state (`factory`), and the calls of `SetSingleton` and `SetPrototype` it makes
on the container while it runs, in order (`registers`), both from the ambient state it
starts in. -/
structure Closure (σ : Type) where
  factory : Factory σ
  registers : σ → List (Registration σ)

/-- The struct `Container` (its mutex apart), with factories that may call back. -/
structure Container (σ : Type) where
  singletons : Registry Val
  factories : Registry (Closure σ)

/-- The program state the methods of `Container` act on. -/
structure State (σ : Type) where
  container : Container σ
  ambient : σ
  calls : List Call

/-- The function `NewContainer()`. -/
def NewContainer (σ : Type) : Container σ :=
  { singletons := [], factories := [] }

/-- The method `SetSingleton(name, singleton)`. -/
def SetSingleton {σ : Type} (name : String) (singleton : Val) (st : State σ) : State σ :=
  { st with container :=
      { st.container with singletons := st.container.singletons.set name singleton } }

/-- The method `SetPrototype(name, factory)`. -/
def SetPrototype {σ : Type} (name : String) (factory : Closure σ) (st : State σ) : State σ :=
  { st with container :=
      { st.container with factories := st.container.factories.set name factory } }

/-- The method `GetSingleton(name)`. -/
def GetSingleton {σ : Type} (name : String) (st : State σ) : Val × State σ :=
  (match st.container.singletons.get name with
   | some v => v
   | none => Val.nil, st)

/-- One registration made by a running factory: a call of `SetSingleton`, or a call of
`SetPrototype` with a factory that does not call back. -/
def register {σ : Type} : Registration σ → State σ → State σ
  | .singleton name value, st => SetSingleton name value st
  | .prototype name factory, st => SetPrototype name ⟨factory, fun _ => []⟩ st

/-- The registrations made by a running factory, in order. -/
def registerAll {σ : Type} (ops : List (Registration σ)) (st : State σ) : State σ :=
  ops.foldl (fun s op => register op s) st

/-- The call `factory()` of a factory found under `name`: the registrations it makes reach
the container, its pair is returned, and the invocation is logged. -/
def invoke {σ : Type} (name : String) (factory : Closure σ) (st : State σ) :
    (Val × Option GoError) × State σ :=
  let r := factory.factory st.ambient
  (r.1, { registerAll (factory.registers st.ambient) st with
            ambient := r.2, calls := st.calls ++ [⟨name, r.1.1, r.1.2⟩] })

/-- The method `GetPrototype(name)`. -/
def GetPrototype {σ : Type} (name : String) (st : State σ) :
    (Val × Option GoError) × State σ :=
  match st.container.factories.get name with
  | none => ((Val.nil, some GoError.ErrFactoryNotFound), st)
  | some factory => invoke name factory st

/-- What a call of `Ensure` leaves behind. -/
structure EnsureResult (σ : Type) where
  outcome : Outcome
  fields : List Field
  state : State σ

/-- Lines 84 to 96 of `Ensure`. -/
def resolve {σ : Type} (tag diName : String) (st : State σ) :
    (Val × Option GoError) × State σ :=
  let r : Val × State σ :=
    if isSingleton tag then GetSingleton diName st else (Val.nil, st)
  if isPrototype tag then GetPrototype diName r.2 else ((r.1, none), r.2)

/-- The loop of `Ensure` over the fields still to visit. -/
def ensureFields {σ : Type} [Assignability] (addressable : Bool) :
    List Field → State σ → EnsureResult σ
  | [], st => ⟨Outcome.ok, [], st⟩
  | f :: rest, st =>
    let diName := injectName f.tag
    if diName = "" then
      let r := ensureFields addressable rest st
      ⟨r.outcome, f :: r.fields, r.state⟩
    else
      let r := resolve f.tag diName st
      match r.1.2 with
      | some err => ⟨Outcome.error err, f :: rest, r.2⟩
      | none =>
        if r.1.1 = Val.nil then
          ⟨Outcome.error (GoError.errorString (diName ++ " dependency not found")),
            f :: rest, r.2⟩
        else if addressable && f.exported && assignableTo r.1.1 f.typ then
          let r' := ensureFields addressable rest r.2
          ⟨r'.outcome, { f with value := r.1.1 } :: r'.fields, r'.state⟩
        else
          ⟨Outcome.panic, f :: rest, r.2⟩

/-- The method `Ensure(instance)` (lines 65 to 110). -/
def Ensure {σ : Type} [Assignability] (inst : Instance) (st : State σ) : EnsureResult σ :=
  match inst with
  | .structPointer fields => ensureFields true fields st
  | .nilStructPointer fields => ensureFields false fields st
  | .other => ⟨Outcome.panic, [], st⟩

/-- The same state of the program, its factories seen as closures that make no
registration. -/
def ofPlain {σ : Type} (st : DI.State σ) : State σ :=
  { container :=
      { singletons := st.container.singletons,
        factories := st.container.factories.map
          (fun kv => (kv.1, (⟨kv.2, fun _ => []⟩ : Closure σ))) },
    ambient := st.ambient, calls := st.calls }

end Reentrant

/-! ## Basic facts about the methods -/

theorem isSingletonLoop_eq_not (tokens : List String) :
    isSingletonLoop tokens = !isPrototypeLoop tokens := by
  induction tokens with
  | nil => rfl
  | cons t ts ih =>
    by_cases h : t = "prototype" <;> simp [isSingletonLoop, isPrototypeLoop, h, ih]

theorem isSingleton_eq_not (tag : String) : isSingleton tag = !isPrototype tag :=
  isSingletonLoop_eq_not (Split tag)

theorem GetSingleton_state {σ : Type} (name : String) (st : State σ) :
    (GetSingleton name st).2 = st := rfl

theorem GetPrototype_container {σ : Type} (name : String) (st : State σ) :
    (GetPrototype name st).2.container = st.container := by
  unfold GetPrototype
  cases st.container.factories.get name <;> rfl

theorem GetPrototype_absent {σ : Type} (name : String) (st : State σ)
    (h : st.container.factories.get name = none) :
    GetPrototype name st = ((Val.nil, some GoError.ErrFactoryNotFound), st) := by
  simp [GetPrototype, h]

theorem GetPrototype_present {σ : Type} (name : String) (st : State σ) (fac : Factory σ)
    (h : st.container.factories.get name = some fac) :
    GetPrototype name st = invoke name fac st := by
  simp [GetPrototype, h]

theorem resolve_singleton {σ : Type} (tag diName : String) (st : State σ)
    (h : isPrototype tag = false) :
    resolve tag diName st = (((GetSingleton diName st).1, none), st) := by
  simp [resolve, isSingleton_eq_not, h, GetSingleton]

theorem resolve_prototype {σ : Type} (tag diName : String) (st : State σ)
    (h : isPrototype tag = true) :
    resolve tag diName st = GetPrototype diName st := by
  simp [resolve, isSingleton_eq_not, h]

theorem resolve_container {σ : Type} (tag diName : String) (st : State σ) :
    (resolve tag diName st).2.container = st.container := by
  cases h : isPrototype tag
  · rw [resolve_singleton tag diName st h]
  · rw [resolve_prototype tag diName st h]; exact GetPrototype_container diName st

/-! ## The loop of `Ensure`, one field at a time -/

theorem ensureFields_nil {σ : Type} [Assignability] (a : Bool) (st : State σ) :
    ensureFields a [] st = ⟨Outcome.ok, [], st⟩ := rfl

theorem ensureFields_skip {σ : Type} [Assignability] (a : Bool) (f : Field) (rest : List Field) (st : State σ)
    (h : injectName f.tag = "") :
    ensureFields a (f :: rest) st =
      ⟨(ensureFields a rest st).outcome, f :: (ensureFields a rest st).fields,
        (ensureFields a rest st).state⟩ := by
  simp [ensureFields, h]

theorem ensureFields_error {σ : Type} [Assignability] (a : Bool) (f : Field) (rest : List Field) (st : State σ)
    (e : GoError) (h : injectName f.tag ≠ "")
    (he : (resolve f.tag (injectName f.tag) st).1.2 = some e) :
    ensureFields a (f :: rest) st =
      ⟨Outcome.error e, f :: rest, (resolve f.tag (injectName f.tag) st).2⟩ := by
  simp [ensureFields, h, he]

theorem ensureFields_missing {σ : Type} [Assignability] (a : Bool) (f : Field) (rest : List Field)
    (st : State σ) (h : injectName f.tag ≠ "")
    (he : (resolve f.tag (injectName f.tag) st).1.2 = none)
    (hv : (resolve f.tag (injectName f.tag) st).1.1 = Val.nil) :
    ensureFields a (f :: rest) st =
      ⟨Outcome.error (GoError.errorString (injectName f.tag ++ " dependency not found")),
        f :: rest, (resolve f.tag (injectName f.tag) st).2⟩ := by
  simp [ensureFields, h, he, hv]

theorem ensureFields_set {σ : Type} [Assignability] (a : Bool) (f : Field) (rest : List Field) (st : State σ)
    (h : injectName f.tag ≠ "")
    (he : (resolve f.tag (injectName f.tag) st).1.2 = none)
    (hv : (resolve f.tag (injectName f.tag) st).1.1 ≠ Val.nil)
    (hs : (a && f.exported && assignableTo (resolve f.tag (injectName f.tag) st).1.1 f.typ)
      = true) :
    ensureFields a (f :: rest) st =
      ⟨(ensureFields a rest (resolve f.tag (injectName f.tag) st).2).outcome,
        { f with value := (resolve f.tag (injectName f.tag) st).1.1 } ::
          (ensureFields a rest (resolve f.tag (injectName f.tag) st).2).fields,
        (ensureFields a rest (resolve f.tag (injectName f.tag) st).2).state⟩ := by
  simp only [ensureFields, h, he, hv, hs, if_true, if_false]

theorem ensureFields_panic {σ : Type} [Assignability] (a : Bool) (f : Field) (rest : List Field) (st : State σ)
    (h : injectName f.tag ≠ "")
    (he : (resolve f.tag (injectName f.tag) st).1.2 = none)
    (hv : (resolve f.tag (injectName f.tag) st).1.1 ≠ Val.nil)
    (hs : (a && f.exported && assignableTo (resolve f.tag (injectName f.tag) st).1.1 f.typ)
      = false) :
    ensureFields a (f :: rest) st =
      ⟨Outcome.panic, f :: rest, (resolve f.tag (injectName f.tag) st).2⟩ := by
  simp [ensureFields, h, he, hv, hs]

/-- The three ways one step of the loop can go: the field is skipped, the loop stops
at it (with an error or a panic), or the field is set and the loop goes on. -/
theorem ensureFields_cons_cases {σ : Type} [Assignability] (a : Bool) (f : Field) (rest : List Field)
    (st : State σ) :
    (injectName f.tag = "" ∧
      ensureFields a (f :: rest) st =
        ⟨(ensureFields a rest st).outcome, f :: (ensureFields a rest st).fields,
          (ensureFields a rest st).state⟩) ∨
    (injectName f.tag ≠ "" ∧
      ∃ o, o ≠ Outcome.ok ∧
        ensureFields a (f :: rest) st =
          ⟨o, f :: rest, (resolve f.tag (injectName f.tag) st).2⟩ ∧
        ((∃ e, (resolve f.tag (injectName f.tag) st).1.2 = some e ∧ o = Outcome.error e) ∨
         ((resolve f.tag (injectName f.tag) st).1.2 = none ∧
          (resolve f.tag (injectName f.tag) st).1.1 = Val.nil ∧
          o = Outcome.error
            (GoError.errorString (injectName f.tag ++ " dependency not found"))) ∨
         ((resolve f.tag (injectName f.tag) st).1.2 = none ∧
          (resolve f.tag (injectName f.tag) st).1.1 ≠ Val.nil ∧
          (a && f.exported &&
            assignableTo (resolve f.tag (injectName f.tag) st).1.1 f.typ) = false ∧
          o = Outcome.panic))) ∨
    (injectName f.tag ≠ "" ∧
      (resolve f.tag (injectName f.tag) st).1.2 = none ∧
      (resolve f.tag (injectName f.tag) st).1.1 ≠ Val.nil ∧
      (a && f.exported &&
        assignableTo (resolve f.tag (injectName f.tag) st).1.1 f.typ) = true ∧
      ensureFields a (f :: rest) st =
        ⟨(ensureFields a rest (resolve f.tag (injectName f.tag) st).2).outcome,
          { f with value := (resolve f.tag (injectName f.tag) st).1.1 } ::
            (ensureFields a rest (resolve f.tag (injectName f.tag) st).2).fields,
          (ensureFields a rest (resolve f.tag (injectName f.tag) st).2).state⟩) := by
  by_cases h : injectName f.tag = ""
  · exact Or.inl ⟨h, ensureFields_skip a f rest st h⟩
  · cases he : (resolve f.tag (injectName f.tag) st).1.2 with
    | some e =>
      exact Or.inr (Or.inl ⟨h, Outcome.error e, by simp,
        ensureFields_error a f rest st e h he, Or.inl ⟨e, rfl, rfl⟩⟩)
    | none =>
      by_cases hv : (resolve f.tag (injectName f.tag) st).1.1 = Val.nil
      · exact Or.inr (Or.inl ⟨h, _, by simp,
          ensureFields_missing a f rest st h he hv, Or.inr (Or.inl ⟨rfl, hv, rfl⟩)⟩)
      · cases hs : (a && f.exported &&
            assignableTo (resolve f.tag (injectName f.tag) st).1.1 f.typ)
        · exact Or.inr (Or.inl ⟨h, Outcome.panic, by simp,
            ensureFields_panic a f rest st h he hv hs, Or.inr (Or.inr ⟨rfl, hv, rfl, rfl⟩)⟩)
        · exact Or.inr (Or.inr ⟨h, rfl, hv, rfl, ensureFields_set a f rest st h he hv hs⟩)

/-- Running the loop over `pre ++ post` is running it over `pre` and, when that
succeeds, over `post` from the state reached; otherwise `post` is not touched. -/
theorem ensureFields_append {σ : Type} [Assignability] (a : Bool) (pre post : List Field) (st : State σ) :
    ensureFields a (pre ++ post) st =
      if (ensureFields a pre st).outcome = Outcome.ok then
        ⟨(ensureFields a post (ensureFields a pre st).state).outcome,
          (ensureFields a pre st).fields ++
            (ensureFields a post (ensureFields a pre st).state).fields,
          (ensureFields a post (ensureFields a pre st).state).state⟩
      else
        ⟨(ensureFields a pre st).outcome, (ensureFields a pre st).fields ++ post,
          (ensureFields a pre st).state⟩ := by
  induction pre generalizing st with
  | nil => simp [ensureFields_nil]
  | cons f rest ih =>
    rcases ensureFields_cons_cases a f rest st with
      ⟨h, e⟩ | ⟨h, o, ho, e, r1⟩ | ⟨h, he, hv, hs, e⟩
    · rw [List.cons_append, ensureFields_skip a f (rest ++ post) st h, e, ih st]
      by_cases hok : (ensureFields a rest st).outcome = Outcome.ok <;> simp [hok]
    · have e2 : ensureFields a (f :: (rest ++ post)) st =
          ⟨o, f :: (rest ++ post), (resolve f.tag (injectName f.tag) st).2⟩ := by
        rcases r1 with ⟨e1, h1, rfl⟩ | ⟨h1, h1v, rfl⟩ | ⟨h1, h1v, h1s, rfl⟩
        · exact ensureFields_error a f (rest ++ post) st e1 h h1
        · exact ensureFields_missing a f (rest ++ post) st h h1 h1v
        · exact ensureFields_panic a f (rest ++ post) st h h1 h1v h1s
      rw [List.cons_append, e2, e]
      simp [ho]
    · rw [List.cons_append, ensureFields_set a f (rest ++ post) st h he hv hs, e,
        ih (resolve f.tag (injectName f.tag) st).2]
      by_cases hok :
        (ensureFields a rest (resolve f.tag (injectName f.tag) st).2).outcome = Outcome.ok <;>
        simp [hok]

theorem ensureFields_length {σ : Type} [Assignability] (a : Bool) (fs : List Field) (st : State σ) :
    (ensureFields a fs st).fields.length = fs.length := by
  induction fs generalizing st with
  | nil => rfl
  | cons f rest ih =>
    rcases ensureFields_cons_cases a f rest st with ⟨_, e⟩ | ⟨_, o, _, e, _⟩ | ⟨_, _, _, _, e⟩
    · rw [e]; simp [ih]
    · rw [e]
    · rw [e]; simp [ih]

theorem ensureFields_container {σ : Type} [Assignability] (a : Bool) (fs : List Field) (st : State σ) :
    (ensureFields a fs st).state.container = st.container := by
  induction fs generalizing st with
  | nil => rfl
  | cons f rest ih =>
    rcases ensureFields_cons_cases a f rest st with ⟨_, e⟩ | ⟨_, o, _, e, _⟩ | ⟨_, _, _, _, e⟩
    · rw [e]; exact ih st
    · rw [e]; exact resolve_container _ _ st
    · rw [e]; exact (ih _).trans (resolve_container _ _ st)

theorem Ensure_eq_ensureFields {σ : Type} [Assignability] (inst : Instance) (st : State σ)
    (h : inst ≠ Instance.other) :
    Ensure inst st = ensureFields inst.addressable inst.fields st := by
  cases inst with
  | structPointer fs => rfl
  | nilStructPointer fs => rfl
  | other => exact absurd rfl h

theorem Ensure_ok_ne_other {σ : Type} [Assignability] (inst : Instance) (st : State σ)
    (h : (Ensure inst st).outcome = Outcome.ok) : inst ≠ Instance.other := by
  rintro rfl
  simp [Ensure] at h

theorem withFields_ne_other (inst : Instance) (fs : List Field) (h : inst ≠ Instance.other) :
    inst.withFields fs ≠ Instance.other := by
  cases inst <;> simp [Instance.withFields] at h ⊢

theorem withFields_fields (inst : Instance) (fs : List Field) (h : inst ≠ Instance.other) :
    (inst.withFields fs).fields = fs := by
  cases inst <;> simp [Instance.withFields, Instance.fields] at h ⊢

theorem withFields_addressable (inst : Instance) (fs : List Field) :
    (inst.withFields fs).addressable = inst.addressable := by
  cases inst <;> rfl

/-! ## Lists and positions -/

theorem getElem?_append_cons_length {α : Type} (l₁ l₂ : List α) (x : α) (n : Nat)
    (h : l₁.length = n) : (l₁ ++ x :: l₂)[n]? = some x := by
  subst h
  induction l₁ with
  | nil => simp
  | cons y ys ih => simpa using ih

theorem eq_take_cons_drop {α : Type} (l : List α) (i : Nat) (x : α) (h : l[i]? = some x) :
    l = l.take i ++ x :: l.drop (i + 1) ∧ (l.take i).length = i := by
  induction l generalizing i with
  | nil => simp at h
  | cons y ys ih =>
    cases i with
    | zero =>
      simp at h
      simp [h]
    | succ j =>
      simp at h
      have := ih j h
      refine ⟨?_, ?_⟩
      · simp only [List.take_succ_cons, List.drop_succ_cons, List.cons_append]
        rw [← this.1]
      · simp [this.2]

/-! ## What the loop leaves in one field -/

/-- After a successful run, the field at the end of `pre` was skipped (no binding name)
or holds the value resolved for it in the state reached after `pre`. -/
theorem ensureFields_ok_at {σ : Type} [Assignability] (a : Bool) (pre post : List Field) (f : Field)
    (st : State σ) (h : (ensureFields a (pre ++ f :: post) st).outcome = Outcome.ok) :
    (ensureFields a pre st).outcome = Outcome.ok ∧
    (ensureFields a (f :: post) (ensureFields a pre st).state).outcome = Outcome.ok ∧
    (ensureFields a (pre ++ f :: post) st).fields[pre.length]? =
      some (if injectName f.tag = "" then f
        else { f with value :=
          (resolve f.tag (injectName f.tag) (ensureFields a pre st).state).1.1 }) ∧
    (injectName f.tag ≠ "" →
      (resolve f.tag (injectName f.tag) (ensureFields a pre st).state).1.2 = none ∧
      (resolve f.tag (injectName f.tag) (ensureFields a pre st).state).1.1 ≠ Val.nil) := by
  rw [ensureFields_append] at h ⊢
  by_cases hp : (ensureFields a pre st).outcome = Outcome.ok
  · simp only [hp, if_true] at h ⊢
    refine ⟨trivial, h, ?_, ?_⟩
    · rcases ensureFields_cons_cases a f post (ensureFields a pre st).state with
        ⟨hn, e⟩ | ⟨hn, o, ho, e, _⟩ | ⟨hn, he, hv, hs, e⟩
      · rw [e]
        simp only [hn, if_true]
        exact getElem?_append_cons_length _ _ _ _ (ensureFields_length a pre st)
      · rw [e] at h; exact absurd h ho
      · rw [e]
        simp only [hn, if_false]
        exact getElem?_append_cons_length _ _ _ _ (ensureFields_length a pre st)
    · intro hn
      rcases ensureFields_cons_cases a f post (ensureFields a pre st).state with
        ⟨hn2, _⟩ | ⟨_, o, ho, e, _⟩ | ⟨_, he, hv, _, _⟩
      · exact absurd hn2 hn
      · rw [e] at h; exact absurd h ho
      · exact ⟨he, hv⟩
  · simp only [hp, if_false] at h

/-- However the run ends, the field at the end of `pre` is left as it was or holds the
value resolved for it in the state reached after `pre`. -/
theorem ensureFields_any_at {σ : Type} [Assignability] (a : Bool) (pre post : List Field) (f : Field)
    (st : State σ) :
    (ensureFields a (pre ++ f :: post) st).fields[pre.length]? = some f ∨
    (injectName f.tag ≠ "" ∧
      (ensureFields a (pre ++ f :: post) st).fields[pre.length]? =
        some { f with value :=
          (resolve f.tag (injectName f.tag) (ensureFields a pre st).state).1.1 }) := by
  rw [ensureFields_append]
  by_cases hp : (ensureFields a pre st).outcome = Outcome.ok
  · simp only [hp, if_true]
    rcases ensureFields_cons_cases a f post (ensureFields a pre st).state with
      ⟨hn, e⟩ | ⟨hn, o, ho, e, _⟩ | ⟨hn, he, hv, hs, e⟩
    · rw [e]
      exact Or.inl (getElem?_append_cons_length _ _ _ _ (ensureFields_length a pre st))
    · rw [e]
      exact Or.inl (getElem?_append_cons_length _ _ _ _ (ensureFields_length a pre st))
    · rw [e]
      exact Or.inr ⟨hn, getElem?_append_cons_length _ _ _ _ (ensureFields_length a pre st)⟩
  · simp only [hp, if_false]
    exact Or.inl (getElem?_append_cons_length _ _ _ _ (ensureFields_length a pre st))

/-! ## Singleton fields -/

theorem GetSingleton_congr {σ : Type} (name : String) (st st2 : State σ)
    (h : st2.container = st.container) :
    (GetSingleton name st2).1 = (GetSingleton name st).1 := by
  simp [GetSingleton, h]

theorem isPrototype_of_isSingleton (tag : String) (h : isSingleton tag = true) :
    isPrototype tag = false := by
  rw [isSingleton_eq_not] at h
  simpa using h

theorem ensureFields_singleton_ok {σ : Type} [Assignability] (a : Bool) (fs : List Field) (st : State σ)
    (h : (ensureFields a fs st).outcome = Outcome.ok) (i : Nat) (f : Field)
    (hi : fs[i]? = some f) (hn : injectName f.tag ≠ "") (hs : isSingleton f.tag = true) :
    (ensureFields a fs st).fields[i]? =
      some { f with value := (GetSingleton (injectName f.tag) st).1 } := by
  obtain ⟨hsplit, hlen⟩ := eq_take_cons_drop fs i f hi
  have key := ensureFields_ok_at a (fs.take i) (fs.drop (i + 1)) f st
    (by rw [← hsplit]; exact h)
  rw [← hsplit, hlen] at key
  rw [key.2.2.1, if_neg hn,
    resolve_singleton _ _ _ (isPrototype_of_isSingleton _ hs)]
  simp only
  rw [GetSingleton_congr _ st _ (ensureFields_container a (fs.take i) st)]

theorem ensureFields_singleton_again {σ : Type} [Assignability] (a : Bool) (fs : List Field) (st : State σ)
    (i : Nat) (g : Field) (hi : fs[i]? = some g) (hs : isSingleton g.tag = true)
    (hv : g.value = (GetSingleton (injectName g.tag) st).1) :
    (ensureFields a fs st).fields[i]? = some g := by
  obtain ⟨hsplit, hlen⟩ := eq_take_cons_drop fs i g hi
  have key := ensureFields_any_at a (fs.take i) (fs.drop (i + 1)) g st
  rw [← hsplit, hlen] at key
  rcases key with key | ⟨_, key⟩
  · exact key
  · rw [key, resolve_singleton _ _ _ (isPrototype_of_isSingleton _ hs)]
    simp only
    rw [GetSingleton_congr _ st _ (ensureFields_container a (fs.take i) st), ← hv]

theorem ensureFields_tags {σ : Type} [Assignability] (a : Bool) (fs : List Field) (st : State σ) :
    (ensureFields a fs st).fields.map Field.tag = fs.map Field.tag := by
  induction fs generalizing st with
  | nil => rfl
  | cons f rest ih =>
    rcases ensureFields_cons_cases a f rest st with ⟨_, e⟩ | ⟨_, o, _, e, _⟩ | ⟨_, _, _, _, e⟩
    · rw [e]; simp [ih]
    · rw [e]
    · rw [e]; simp [ih]

/-- A field found after the run stands where a field with the same tag stood before. -/
theorem ensureFields_origin {σ : Type} [Assignability] (a : Bool) (fs : List Field) (st : State σ)
    (i : Nat) (g : Field) (hi : (ensureFields a fs st).fields[i]? = some g) :
    ∃ f, fs[i]? = some f ∧ f.tag = g.tag := by
  have h1 : ((ensureFields a fs st).fields.map Field.tag)[i]? = some g.tag := by
    simp [List.getElem?_map, hi]
  rw [ensureFields_tags, List.getElem?_map] at h1
  cases hf : fs[i]? with
  | none => simp [hf] at h1
  | some f => exact ⟨f, rfl, by simpa [hf] using h1⟩

/-! ## Claims about singleton fields -/

/-- C1: if `Ensure` returns success, every field whose tag selects singleton policy with a
binding name `n` holds exactly the value the singleton registry has under `n`; two such
fields naming the same `n` hold the identical value; and another `Ensure` on the same
consumer against the same registry, however it ends, leaves those fields with that value.
In the demo program `Db0` and `Db1` both hold the registered handle. -/
theorem Ensure_singleton_shared {σ : Type} [Assignability] :
    (∀ (inst : Instance) (st : State σ), (Ensure inst st).outcome = Outcome.ok →
      (∀ (i : Nat) (f : Field), inst.fields[i]? = some f → injectName f.tag ≠ "" → isSingleton f.tag = true →
        (Ensure inst st).fields[i]? =
          some { f with value := (GetSingleton (injectName f.tag) st).1 }) ∧
      (∀ (i j : Nat) (f g : Field), (Ensure inst st).fields[i]? = some f → (Ensure inst st).fields[j]? = some g →
        injectName f.tag ≠ "" → isSingleton f.tag = true → isSingleton g.tag = true →
        injectName g.tag = injectName f.tag →
        f.value = (GetSingleton (injectName f.tag) st).1 ∧ g.value = f.value) ∧
      (∀ st2 : State σ, st2.container = st.container →
        ∀ (i : Nat) (f : Field), (Ensure inst st).fields[i]? = some f → injectName f.tag ≠ "" →
          isSingleton f.tag = true →
          (Ensure (inst.withFields (Ensure inst st).fields) st2).fields[i]? = some f)) ∧
    (∀ addr allocated : Nat,
      (Ensure NewA (mainState (Val.pointer "sql.DB" addr) allocated)).outcome = Outcome.ok ∧
      ((Ensure NewA (mainState (Val.pointer "sql.DB" addr) allocated)).fields.map
          Field.value).take 2 = [Val.pointer "sql.DB" addr, Val.pointer "sql.DB" addr]) := by
  refine ⟨?_, fun addr allocated => ⟨rfl, rfl⟩⟩
  intro inst st h
  have hne := Ensure_ok_ne_other inst st h
  rw [Ensure_eq_ensureFields inst st hne] at h ⊢
  have value_of : ∀ (i : Nat) (f : Field), (ensureFields inst.addressable inst.fields st).fields[i]? = some f →
      injectName f.tag ≠ "" → isSingleton f.tag = true →
      f.value = (GetSingleton (injectName f.tag) st).1 := by
    intro i f hi hn hs
    obtain ⟨f0, h0, ht⟩ := ensureFields_origin _ _ _ i f hi
    have := ensureFields_singleton_ok _ _ _ h i f0 h0 (ht ▸ hn) (ht ▸ hs)
    rw [hi] at this
    cases this
    rfl
  refine ⟨?_, ?_, ?_⟩
  · intro i f hi hn hs
    exact ensureFields_singleton_ok _ _ _ h i f hi hn hs
  · intro i j f g hi hj hn hs hsg hname
    refine ⟨value_of i f hi hn hs, ?_⟩
    rw [value_of i f hi hn hs, value_of j g hj (hname ▸ hn) hsg, hname]
  · intro st2 hc i f hi hn hs
    rw [Ensure_eq_ensureFields _ st2 (withFields_ne_other inst _ hne),
      withFields_fields inst _ hne, withFields_addressable]
    apply ensureFields_singleton_again _ _ _ i f hi hs
    rw [value_of i f hi hn hs, GetSingleton_congr _ st st2 hc]

theorem Ensure_singleton_shared_witness :
    (Ensure NewA (mainState (Val.pointer "sql.DB" 77) 5)).outcome = Outcome.ok ∧
    (Ensure NewA (mainState (Val.pointer "sql.DB" 77) 5)).fields[1]? =
      some { (⟨"Db1", true, GoType.named "*sql.DB", "db", Val.pointer "sql.DB" 0⟩ : Field) with
        value := (GetSingleton (injectName "db") (mainState (Val.pointer "sql.DB" 77) 5)).1 } :=
  ⟨by decide,
    ((@Ensure_singleton_shared Nat nominalTypes).1 NewA (mainState (Val.pointer "sql.DB" 77) 5)
      (by decide)).1 1 ⟨"Db1", true, GoType.named "*sql.DB", "db", Val.pointer "sql.DB" 0⟩
      (by decide) (by decide) (by decide)⟩

/-! ## Prototype fields and the log of factory invocations -/

/-- On the factory path either no factory is registered, and nothing is invoked, or the
registered factory is invoked once. -/
theorem resolve_prototype_cases {σ : Type} (tag diName : String) (st : State σ)
    (h : isPrototype tag = true) :
    (st.container.factories.get diName = none ∧
      resolve tag diName st = ((Val.nil, some GoError.ErrFactoryNotFound), st)) ∨
    (∃ fac, st.container.factories.get diName = some fac ∧
      resolve tag diName st = invoke diName fac st) := by
  rw [resolve_prototype tag diName st h]
  cases hf : st.container.factories.get diName with
  | none => exact Or.inl ⟨rfl, GetPrototype_absent diName st hf⟩
  | some fac => exact Or.inr ⟨fac, rfl, GetPrototype_present diName st fac hf⟩

theorem invoke_calls {σ : Type} (name : String) (fac : Factory σ) (st : State σ) :
    (invoke name fac st).2.calls =
      st.calls ++ [⟨name, (invoke name fac st).1.1, (invoke name fac st).1.2⟩] := rfl

/-- The log after resolving one field without error: one more entry on the factory path,
none on the singleton path. -/
theorem resolve_calls {σ : Type} (tag diName : String) (st : State σ)
    (he : (resolve tag diName st).1.2 = none) :
    (resolve tag diName st).2.calls =
      st.calls ++
        (if isPrototype tag = true then [⟨diName, (resolve tag diName st).1.1, none⟩]
         else []) := by
  cases h : isPrototype tag
  · rw [resolve_singleton tag diName st h]; simp
  · rcases resolve_prototype_cases tag diName st h with ⟨_, e⟩ | ⟨fac, _, e⟩
    · rw [e] at he; cases he
    · rw [e] at he ⊢
      rw [invoke_calls, he]
      simp

theorem ensureFields_calls_ok {σ : Type} [Assignability] (a : Bool) (fs : List Field) (st : State σ)
    (h : (ensureFields a fs st).outcome = Outcome.ok) :
    (ensureFields a fs st).state.calls =
      st.calls ++ ((ensureFields a fs st).fields.filter Field.prototypePolicy).map
        (fun f => (⟨injectName f.tag, f.value, none⟩ : Call)) := by
  induction fs generalizing st with
  | nil => simp [ensureFields_nil]
  | cons f rest ih =>
    rcases ensureFields_cons_cases a f rest st with
      ⟨hn, e⟩ | ⟨_, o, ho, e, _⟩ | ⟨hn, he, hv, hs, e⟩
    · rw [e] at h ⊢
      simp only at h ⊢
      rw [ih st h]
      simp [List.filter_cons, Field.prototypePolicy, hn]
    · rw [e] at h; exact absurd h ho
    · rw [e] at h ⊢
      simp only at h ⊢
      rw [ih _ h, resolve_calls _ _ st he]
      cases hp : isPrototype f.tag <;>
        simp [List.filter_cons, Field.prototypePolicy, hn, hp]

/-! ## Factories that allocate -/

theorem Val.addrIn_mono {v : Val} {lo hi lo2 hi2 : Nat} (h : v.addrIn lo hi)
    (hlo : lo2 ≤ lo) (hhi : hi ≤ hi2) : v.addrIn lo2 hi2 := by
  obtain ⟨elem, addr, rfl, h1, h2⟩ := h
  exact ⟨elem, addr, rfl, by omega, by omega⟩

theorem Val.addrIn_ne {v w : Val} {lo mid hi : Nat} (hv : v.addrIn lo mid)
    (hw : w.addrIn mid hi) : v ≠ w := by
  obtain ⟨e1, a1, rfl, _, h2⟩ := hv
  obtain ⟨e2, a2, rfl, h3, _⟩ := hw
  intro h
  cases h
  omega

theorem resolve_mark {σ : Type} (mark : σ → Nat) (tag diName : String) (st : State σ)
    (hall : ∀ name fac, st.container.factories.get name = some fac → Allocating mark fac) :
    mark st.ambient ≤ mark (resolve tag diName st).2.ambient ∧
    (isPrototype tag = true → (resolve tag diName st).1.2 = none →
      (resolve tag diName st).1.1 ≠ Val.nil →
      (resolve tag diName st).1.1.addrIn (mark st.ambient)
        (mark (resolve tag diName st).2.ambient)) := by
  cases h : isPrototype tag
  · rw [resolve_singleton tag diName st h]
    exact ⟨Nat.le_refl _, fun hp => by cases hp⟩
  · rcases resolve_prototype_cases tag diName st h with ⟨_, e⟩ | ⟨fac, hf, e⟩
    · rw [e]
      exact ⟨Nat.le_refl _, fun _ he => by cases he⟩
    · rw [e]
      have := hall diName fac hf st.ambient
      exact ⟨this.1, fun _ he hv => this.2 he hv⟩

theorem ensureFields_mark {σ : Type} [Assignability] (mark : σ → Nat) (a : Bool) (fs : List Field)
    (st : State σ)
    (hall : ∀ name fac, st.container.factories.get name = some fac → Allocating mark fac) :
    mark st.ambient ≤ mark (ensureFields a fs st).state.ambient := by
  induction fs generalizing st with
  | nil => exact Nat.le_refl _
  | cons f rest ih =>
    have hr := (resolve_mark mark f.tag (injectName f.tag) st hall).1
    rcases ensureFields_cons_cases a f rest st with ⟨_, e⟩ | ⟨_, o, _, e, _⟩ | ⟨_, _, _, _, e⟩
    · rw [e]; exact ih st hall
    · rw [e]; exact hr
    · rw [e]
      refine Nat.le_trans hr (ih _ ?_)
      rw [resolve_container]
      exact hall

theorem prototypePolicy_iff (f : Field) :
    f.prototypePolicy = true ↔ injectName f.tag ≠ "" ∧ isPrototype f.tag = true := by
  simp [Field.prototypePolicy]

theorem prototypePolicy_congr (f g : Field) (h : f.tag = g.tag) :
    f.prototypePolicy = g.prototypePolicy := by
  simp [Field.prototypePolicy, h]

/-- After a successful run with allocating factories, a prototype field holds a pointer
given out during the run. -/
theorem ensureFields_fresh {σ : Type} [Assignability] (mark : σ → Nat) (a : Bool) (fs : List Field)
    (st : State σ)
    (hall : ∀ name fac, st.container.factories.get name = some fac → Allocating mark fac)
    (h : (ensureFields a fs st).outcome = Outcome.ok) (i : Nat) (g : Field)
    (hi : (ensureFields a fs st).fields[i]? = some g) (hp : g.prototypePolicy = true) :
    g.value.addrIn (mark st.ambient) (mark (ensureFields a fs st).state.ambient) := by
  induction fs generalizing st i with
  | nil => simp [ensureFields_nil] at hi
  | cons f rest ih =>
    have hr := resolve_mark mark f.tag (injectName f.tag) st hall
    rcases ensureFields_cons_cases a f rest st with
      ⟨hn, e⟩ | ⟨_, o, ho, e, _⟩ | ⟨hn, he, hv, hs, e⟩
    · rw [e] at h hi ⊢
      cases i with
      | zero =>
        simp at hi
        subst hi
        exact absurd hn ((prototypePolicy_iff f).1 hp).1
      | succ k =>
        simp at hi
        exact ih st hall h k hi
    · rw [e] at h; exact absurd h ho
    · rw [e] at h hi ⊢
      have hall2 : ∀ name fac,
          (resolve f.tag (injectName f.tag) st).2.container.factories.get name = some fac →
          Allocating mark fac := by
        rw [resolve_container]; exact hall
      cases i with
      | zero =>
        simp at hi
        subst hi
        have hproto : isPrototype f.tag = true :=
          ((prototypePolicy_iff _).1 hp).2
        exact Val.addrIn_mono (hr.2 hproto he hv) (Nat.le_refl _)
          (ensureFields_mark mark a rest _ hall2)
      | succ k =>
        simp at hi
        exact Val.addrIn_mono (ih _ hall2 h k hi) hr.1 (Nat.le_refl _)

/-- After a successful run with allocating factories, an earlier and a later prototype
field hold different values. -/
theorem ensureFields_distinct {σ : Type} [Assignability] (mark : σ → Nat) (a : Bool) (fs : List Field)
    (st : State σ)
    (hall : ∀ name fac, st.container.factories.get name = some fac → Allocating mark fac)
    (h : (ensureFields a fs st).outcome = Outcome.ok) (i j : Nat) (hij : i < j)
    (f g : Field)
    (hi : (ensureFields a fs st).fields[i]? = some f)
    (hj : (ensureFields a fs st).fields[j]? = some g)
    (hf : f.prototypePolicy = true) (hg : g.prototypePolicy = true) :
    f.value ≠ g.value := by
  induction fs generalizing st i j with
  | nil => simp [ensureFields_nil] at hi
  | cons f0 rest ih =>
    have hr := resolve_mark mark f0.tag (injectName f0.tag) st hall
    cases j with
    | zero => omega
    | succ j2 =>
      rcases ensureFields_cons_cases a f0 rest st with
        ⟨hn, e⟩ | ⟨_, o, ho, e, _⟩ | ⟨hn, he, hv, hs, e⟩
      · rw [e] at h hi hj
        simp at hj
        cases i with
        | zero =>
          simp at hi
          subst hi
          exact absurd hn ((prototypePolicy_iff f0).1 hf).1
        | succ i2 =>
          simp at hi
          exact ih st hall h i2 j2 (by omega) hi hj
      · rw [e] at h; exact absurd h ho
      · rw [e] at h hi hj
        have hall2 : ∀ name fac,
            (resolve f0.tag (injectName f0.tag) st).2.container.factories.get name = some fac →
            Allocating mark fac := by
          rw [resolve_container]; exact hall
        simp at hj
        cases i with
        | zero =>
          simp at hi
          subst hi
          have hproto : isPrototype f0.tag = true :=
            ((prototypePolicy_iff _).1 hf).2
          exact Val.addrIn_ne (hr.2 hproto he hv)
            (ensureFields_fresh mark a rest _ hall2 h j2 g hj hg)
        | succ i2 =>
          simp at hi
          exact ih _ hall2 h i2 j2 (by omega) hi hj

/-- C3, as stated, fails: with a factory that returns the same object on every invocation,
`Ensure` succeeds, the two fields tagged `b,prototype` hold identity-equal values, and the
next successful `Ensure` leaves the same value in them again. -/
theorem Ensure_prototype_distinct_counterexample :
    (Ensure NewA (sharedState (Val.pointer "sql.DB" 77) 5)).outcome = Outcome.ok ∧
    ((Ensure NewA (sharedState (Val.pointer "sql.DB" 77) 5)).fields.map
        (fun f => (f.tag, f.value))).drop 2 =
      [("b,prototype", Val.pointer "demo.B" 1), ("b,prototype", Val.pointer "demo.B" 1)] ∧
    (Ensure (NewA.withFields (Ensure NewA (sharedState (Val.pointer "sql.DB" 77) 5)).fields)
      (Ensure NewA (sharedState (Val.pointer "sql.DB" 77) 5)).state).outcome = Outcome.ok ∧
    ((Ensure (NewA.withFields (Ensure NewA (sharedState (Val.pointer "sql.DB" 77) 5)).fields)
      (Ensure NewA (sharedState (Val.pointer "sql.DB" 77) 5)).state).fields.map
        (fun f => (f.tag, f.value))).drop 2 =
      [("b,prototype", Val.pointer "demo.B" 1), ("b,prototype", Val.pointer "demo.B" 1)] := by
  decide

/-- C3, amended: when every registered factory hands out new objects only (`Allocating`),
then after a successful `Ensure` any two distinct prototype-policy fields hold values that
are not identity-equal, and the value a prototype field holds after one successful
`Ensure` is not identity-equal to the value it holds after the next successful `Ensure`
on the same consumer and registry (the mark of objects given out not having been lowered
in between). -/
theorem Ensure_prototype_distinct {σ : Type} [Assignability] (mark : σ → Nat) (inst : Instance)
    (st : State σ)
    (hall : ∀ name fac, st.container.factories.get name = some fac → Allocating mark fac)
    (h : (Ensure inst st).outcome = Outcome.ok) :
    (∀ (i j : Nat) (f g : Field), i ≠ j →
      (Ensure inst st).fields[i]? = some f → (Ensure inst st).fields[j]? = some g →
      f.prototypePolicy = true → g.prototypePolicy = true → f.value ≠ g.value) ∧
    (∀ st2 : State σ, st2.container = st.container →
      mark (Ensure inst st).state.ambient ≤ mark st2.ambient →
      (Ensure (inst.withFields (Ensure inst st).fields) st2).outcome = Outcome.ok →
      ∀ (i : Nat) (f g : Field), (Ensure inst st).fields[i]? = some f →
        (Ensure (inst.withFields (Ensure inst st).fields) st2).fields[i]? = some g →
        f.prototypePolicy = true → g.value ≠ f.value) := by
  have hne := Ensure_ok_ne_other inst st h
  rw [Ensure_eq_ensureFields inst st hne] at h ⊢
  refine ⟨?_, ?_⟩
  · intro i j f g hij hi hj hf hg
    rcases Nat.lt_or_gt_of_ne hij with hlt | hgt
    · exact ensureFields_distinct mark _ _ st hall h i j hlt f g hi hj hf hg
    · exact (ensureFields_distinct mark _ _ st hall h j i hgt g f hj hi hg hf).symm
  · intro st2 hc hm h2 i f g hi hj hf
    rw [Ensure_eq_ensureFields _ st2 (withFields_ne_other inst _ hne),
      withFields_fields inst _ hne, withFields_addressable] at h2 hj
    have hall2 : ∀ name fac, st2.container.factories.get name = some fac →
        Allocating mark fac := by
      rw [hc]; exact hall
    obtain ⟨f2, hf2, ht⟩ := ensureFields_origin _ _ _ i g hj
    rw [hi] at hf2
    cases hf2
    have hg : g.prototypePolicy = true := by
      rw [← prototypePolicy_congr f g ht]; exact hf
    have old := ensureFields_fresh mark _ _ st hall h i f hi hf
    have new := ensureFields_fresh mark _ _ st2 hall2 h2 i g hj hg
    exact (Val.addrIn_ne (Val.addrIn_mono old (Nat.le_refl _) hm) new).symm

theorem Ensure_prototype_distinct_witness :
    (∀ name fac,
      (mainState (Val.pointer "sql.DB" 77) 5).container.factories.get name = some fac →
      Allocating id fac) ∧
    (Ensure NewA (mainState (Val.pointer "sql.DB" 77) 5)).outcome = Outcome.ok ∧
    (⟨"B0", true, GoType.named "*demo.B", "b,prototype", Val.pointer "demo.B" 6⟩ : Field).value
      ≠ (⟨"B1", true, GoType.named "*demo.B", "b,prototype", Val.pointer "demo.B" 7⟩ :
          Field).value :=
  have hall : ∀ name fac,
      (mainState (Val.pointer "sql.DB" 77) 5).container.factories.get name = some fac →
      Allocating id fac := by
    intro name fac hget
    have hfac : fac = NewB := by
      simp only [mainState, SetPrototype, SetSingleton, NewContainer, Registry.set,
        Registry.get] at hget
      split at hget
      · exact (Option.some.inj hget).symm
      · cases hget
    subst hfac
    intro s
    refine ⟨Nat.le_succ s, fun _ _ => ⟨"demo.B", s + 1, rfl, Nat.lt_succ_self s, Nat.le_refl _⟩⟩
  ⟨hall, by decide,
    (Ensure_prototype_distinct id NewA (mainState (Val.pointer "sql.DB" 77) 5) hall
      (by decide)).1 2 3 _ _ (by decide) (by decide) (by decide) (by decide) (by decide)⟩

/-! ## Claims about `GetPrototype` -/

/-- C4, as stated, fails in the direction from the result to the registry: a factory is
registered under `"b"`, and `GetPrototype("b")` returns `(nil, ErrFactoryNotFound)`,
because the registered factory returned that pair. -/
theorem GetPrototype_not_found_counterexample :
    (GetPrototype "b" notFoundState).1 = (Val.nil, some GoError.ErrFactoryNotFound) ∧
    (notFoundState.container.factories.get "b").isSome = true := by
  decide

/-- C4, amended: if no factory is registered under `name`, `GetPrototype` returns
`(nil, ErrFactoryNotFound)` and invokes nothing (the state is untouched); if a factory is
registered, it is invoked exactly once and `GetPrototype` returns exactly its pair,
unmodified (which may itself be `(nil, ErrFactoryNotFound)`).  So `GetPrototype` returns
`(nil, ErrFactoryNotFound)` without an invocation if and only if no factory is registered
under `name`. -/
theorem GetPrototype_result {σ : Type} (name : String) (st : State σ) :
    (st.container.factories.get name = none →
      GetPrototype name st = ((Val.nil, some GoError.ErrFactoryNotFound), st)) ∧
    (∀ fac, st.container.factories.get name = some fac →
      (GetPrototype name st).1 = (fac st.ambient).1 ∧
      (GetPrototype name st).2.ambient = (fac st.ambient).2 ∧
      (GetPrototype name st).2.calls =
        st.calls ++ [⟨name, (fac st.ambient).1.1, (fac st.ambient).1.2⟩]) ∧
    (((GetPrototype name st).1 = (Val.nil, some GoError.ErrFactoryNotFound) ∧
        (GetPrototype name st).2.calls = st.calls) ↔
      st.container.factories.get name = none) := by
  refine ⟨GetPrototype_absent name st, ?_, ?_⟩
  · intro fac hf
    rw [GetPrototype_present name st fac hf]
    exact ⟨rfl, rfl, rfl⟩
  · constructor
    · rintro ⟨_, hcalls⟩
      cases hf : st.container.factories.get name with
      | none => rfl
      | some fac =>
        rw [GetPrototype_present name st fac hf, invoke_calls] at hcalls
        have := congrArg List.length hcalls
        simp at this
    · intro hf
      rw [GetPrototype_absent name st hf]
      exact ⟨rfl, rfl⟩

theorem GetPrototype_result_witness :
    (mainState (Val.pointer "sql.DB" 77) 5).container.factories.get "db" = none ∧
    GetPrototype "db" (mainState (Val.pointer "sql.DB" 77) 5) =
      ((Val.nil, some GoError.ErrFactoryNotFound), mainState (Val.pointer "sql.DB" 77) 5) ∧
    (mainState (Val.pointer "sql.DB" 77) 5).container.factories.get "b" = some NewB ∧
    (GetPrototype "b" (mainState (Val.pointer "sql.DB" 77) 5)).1 = (NewB 5).1 :=
  ⟨rfl,
    (GetPrototype_result "db" (mainState (Val.pointer "sql.DB" 77) 5)).1 rfl,
    rfl,
    ((GetPrototype_result "b" (mainState (Val.pointer "sql.DB" 77) 5)).2.1 NewB rfl).1⟩

/-! ## Where the loop stops -/

theorem fields_ne_other (inst : Instance) (pre post : List Field) (f : Field)
    (h : inst.fields = pre ++ f :: post) : inst ≠ Instance.other := by
  rintro rfl
  simp [Instance.fields] at h

theorem Ensure_withFields {σ : Type} [Assignability] (inst : Instance) (fs : List Field) (st : State σ)
    (h : inst ≠ Instance.other) :
    Ensure (inst.withFields fs) st = ensureFields inst.addressable fs st := by
  rw [Ensure_eq_ensureFields _ st (withFields_ne_other inst fs h),
    withFields_fields inst fs h, withFields_addressable]

/-- When the fields before `f` are done with success, the run goes on with `f` from
the state reached. -/
theorem ensureFields_continue {σ : Type} [Assignability] (a : Bool) (pre post : List Field) (f : Field)
    (st : State σ) (hpre : (ensureFields a pre st).outcome = Outcome.ok) :
    ensureFields a (pre ++ f :: post) st =
      ⟨(ensureFields a (f :: post) (ensureFields a pre st).state).outcome,
        (ensureFields a pre st).fields ++
          (ensureFields a (f :: post) (ensureFields a pre st).state).fields,
        (ensureFields a (f :: post) (ensureFields a pre st).state).state⟩ := by
  rw [ensureFields_append, if_pos hpre]

/-! ## Claims about failing fields -/

/-- C5: when the fields before field `f` resolve successfully and `f` has prototype policy
with a non-empty binding name that the factory registry lacks, `Ensure` returns
`ErrFactoryNotFound`, whatever the singleton registry holds, and neither `f` nor a later
field is written: the consumer is as the run over the earlier fields left it. -/
theorem Ensure_factory_not_found {σ : Type} [Assignability] (inst : Instance) (st : State σ)
    (pre post : List Field) (f : Field)
    (hfields : inst.fields = pre ++ f :: post)
    (hpre : (Ensure (inst.withFields pre) st).outcome = Outcome.ok)
    (hn : injectName f.tag ≠ "") (hp : isPrototype f.tag = true)
    (habs : st.container.factories.get (injectName f.tag) = none) :
    (Ensure inst st).outcome = Outcome.error GoError.ErrFactoryNotFound ∧
    (Ensure inst st).fields = (Ensure (inst.withFields pre) st).fields ++ f :: post ∧
    (Ensure inst st).fields[pre.length]? = some f ∧
    (Ensure inst st).state = (Ensure (inst.withFields pre) st).state := by
  have hne := fields_ne_other inst pre post f hfields
  rw [Ensure_withFields inst pre st hne] at hpre ⊢
  rw [Ensure_eq_ensureFields inst st hne, hfields,
    ensureFields_continue _ pre post f st hpre]
  have hres : resolve f.tag (injectName f.tag) (ensureFields inst.addressable pre st).state =
      ((Val.nil, some GoError.ErrFactoryNotFound),
        (ensureFields inst.addressable pre st).state) := by
    rw [resolve_prototype _ _ _ hp]
    apply GetPrototype_absent
    rw [ensureFields_container]
    exact habs
  rw [ensureFields_error _ f post _ GoError.ErrFactoryNotFound hn (by rw [hres])]
  rw [hres]
  exact ⟨rfl, rfl, getElem?_append_cons_length _ _ _ _ (ensureFields_length _ pre st), rfl⟩

theorem Ensure_factory_not_found_witness :
    (Ensure (Instance.structPointer
        [⟨"Db0", true, GoType.named "*sql.DB", "db", Val.pointer "sql.DB" 0⟩,
         ⟨"Db1", true, GoType.named "*sql.DB", "db,prototype", Val.pointer "sql.DB" 0⟩])
      (mainState (Val.pointer "sql.DB" 77) 5)).outcome =
      Outcome.error GoError.ErrFactoryNotFound :=
  (Ensure_factory_not_found
    (Instance.structPointer
      [⟨"Db0", true, GoType.named "*sql.DB", "db", Val.pointer "sql.DB" 0⟩,
       ⟨"Db1", true, GoType.named "*sql.DB", "db,prototype", Val.pointer "sql.DB" 0⟩])
    (mainState (Val.pointer "sql.DB" 77) 5)
    [⟨"Db0", true, GoType.named "*sql.DB", "db", Val.pointer "sql.DB" 0⟩] []
    ⟨"Db1", true, GoType.named "*sql.DB", "db,prototype", Val.pointer "sql.DB" 0⟩
    rfl (by decide) (by decide) (by decide) rfl).1

/-- C6: when the fields before field `f` resolve successfully and the value resolved for `f`
is nil without an error (a singleton-policy field whose name is not registered or is
registered with a nil value, or a prototype field whose factory returns `(nil, nil)`),
`Ensure` fails with the error whose message is the binding name followed by
`" dependency not found"`, and `f` is not written. -/
theorem Ensure_dependency_not_found {σ : Type} [Assignability] (inst : Instance) (st : State σ)
    (pre post : List Field) (f : Field)
    (hfields : inst.fields = pre ++ f :: post)
    (hpre : (Ensure (inst.withFields pre) st).outcome = Outcome.ok)
    (hn : injectName f.tag ≠ "")
    (hcase :
      (isSingleton f.tag = true ∧
        (st.container.singletons.get (injectName f.tag) = none ∨
         st.container.singletons.get (injectName f.tag) = some Val.nil)) ∨
      (isPrototype f.tag = true ∧
        ∃ fac, st.container.factories.get (injectName f.tag) = some fac ∧
          (fac (Ensure (inst.withFields pre) st).state.ambient).1 = (Val.nil, none))) :
    (Ensure inst st).outcome =
      Outcome.error (GoError.errorString (injectName f.tag ++ " dependency not found")) ∧
    (∃ e, (Ensure inst st).outcome = Outcome.error e ∧
      e.Error = injectName f.tag ++ " dependency not found") ∧
    (Ensure inst st).fields = (Ensure (inst.withFields pre) st).fields ++ f :: post ∧
    (Ensure inst st).fields[pre.length]? = some f := by
  have hne := fields_ne_other inst pre post f hfields
  rw [Ensure_withFields inst pre st hne] at hpre hcase ⊢
  rw [Ensure_eq_ensureFields inst st hne, hfields,
    ensureFields_continue _ pre post f st hpre]
  have hres : (resolve f.tag (injectName f.tag)
      (ensureFields inst.addressable pre st).state).1 = (Val.nil, none) := by
    rcases hcase with ⟨hs, hget⟩ | ⟨hp, fac, hget, hfac⟩
    · rw [resolve_singleton _ _ _ (isPrototype_of_isSingleton _ hs)]
      simp only [GetSingleton]
      rw [ensureFields_container]
      rcases hget with hget | hget <;> rw [hget]
    · rw [resolve_prototype _ _ _ hp,
        GetPrototype_present _ _ fac (by rw [ensureFields_container]; exact hget)]
      exact hfac
  rw [ensureFields_missing _ f post _ hn (by rw [hres]) (by rw [hres])]
  exact ⟨rfl, ⟨_, rfl, rfl⟩, rfl,
    getElem?_append_cons_length _ _ _ _ (ensureFields_length _ pre st)⟩

theorem Ensure_dependency_not_found_witness :
    (Ensure (Instance.structPointer
        [⟨"Db0", true, GoType.named "*sql.DB", "db", Val.pointer "sql.DB" 0⟩,
         ⟨"Cache", true, GoType.named "*demo.Cache", "cache", Val.pointer "demo.Cache" 0⟩])
      (mainState (Val.pointer "sql.DB" 77) 5)).outcome =
      Outcome.error (GoError.errorString (injectName "cache" ++ " dependency not found")) :=
  (Ensure_dependency_not_found
    (Instance.structPointer
      [⟨"Db0", true, GoType.named "*sql.DB", "db", Val.pointer "sql.DB" 0⟩,
       ⟨"Cache", true, GoType.named "*demo.Cache", "cache", Val.pointer "demo.Cache" 0⟩])
    (mainState (Val.pointer "sql.DB" 77) 5)
    [⟨"Db0", true, GoType.named "*sql.DB", "db", Val.pointer "sql.DB" 0⟩] []
    ⟨"Cache", true, GoType.named "*demo.Cache", "cache", Val.pointer "demo.Cache" 0⟩
    rfl (by decide) (by decide) (Or.inl ⟨by decide, Or.inl rfl⟩)).1

/-- C7: when the fields before a prototype field `f` resolve successfully and the factory
of `f` returns the error `E`, `Ensure` returns exactly `E`, leaves `f` (and every later
field) with the value it had before the call, whatever value the factory returned with
the error, and the invocation for `f` is the last one made: no factory is invoked for a
later field. -/
theorem Ensure_factory_error {σ : Type} [Assignability] (inst : Instance) (st : State σ)
    (pre post : List Field) (f : Field) (fac : Factory σ) (E : GoError)
    (hfields : inst.fields = pre ++ f :: post)
    (hpre : (Ensure (inst.withFields pre) st).outcome = Outcome.ok)
    (hn : injectName f.tag ≠ "") (hp : isPrototype f.tag = true)
    (hget : st.container.factories.get (injectName f.tag) = some fac)
    (herr : (fac (Ensure (inst.withFields pre) st).state.ambient).1.2 = some E) :
    (Ensure inst st).outcome = Outcome.error E ∧
    (Ensure inst st).fields = (Ensure (inst.withFields pre) st).fields ++ f :: post ∧
    (Ensure inst st).fields[pre.length]? = some f ∧
    (Ensure inst st).state.calls =
      (Ensure (inst.withFields pre) st).state.calls ++
        [⟨injectName f.tag,
          (fac (Ensure (inst.withFields pre) st).state.ambient).1.1, some E⟩] ∧
    (Ensure inst st).state.ambient =
      (fac (Ensure (inst.withFields pre) st).state.ambient).2 := by
  have hne := fields_ne_other inst pre post f hfields
  rw [Ensure_withFields inst pre st hne] at hpre herr ⊢
  rw [Ensure_eq_ensureFields inst st hne, hfields,
    ensureFields_continue _ pre post f st hpre]
  have hres : resolve f.tag (injectName f.tag) (ensureFields inst.addressable pre st).state =
      invoke (injectName f.tag) fac (ensureFields inst.addressable pre st).state := by
    rw [resolve_prototype _ _ _ hp]
    apply GetPrototype_present
    rw [ensureFields_container]
    exact hget
  rw [ensureFields_error _ f post _ E hn (by rw [hres]; exact herr)]
  rw [hres]
  refine ⟨rfl, rfl, getElem?_append_cons_length _ _ _ _ (ensureFields_length _ pre st), ?_, rfl⟩
  rw [invoke_calls]
  simp only [invoke]
  rw [herr]

theorem Ensure_factory_error_witness :
    (Ensure NewA (failingState (Val.pointer "sql.DB" 77) (Val.pointer "demo.B" 9)
      (GoError.custom 1 "no more B") 5)).outcome =
      Outcome.error (GoError.custom 1 "no more B") ∧
    (Ensure NewA (failingState (Val.pointer "sql.DB" 77) (Val.pointer "demo.B" 9)
      (GoError.custom 1 "no more B") 5)).fields[2]? =
      some ⟨"B0", true, GoType.named "*demo.B", "b,prototype", Val.pointer "demo.B" 0⟩ :=
  have key := Ensure_factory_error NewA
    (failingState (Val.pointer "sql.DB" 77) (Val.pointer "demo.B" 9)
      (GoError.custom 1 "no more B") 5)
    [⟨"Db0", true, GoType.named "*sql.DB", "db", Val.pointer "sql.DB" 0⟩,
     ⟨"Db1", true, GoType.named "*sql.DB", "db", Val.pointer "sql.DB" 0⟩]
    [⟨"B1", true, GoType.named "*demo.B", "b,prototype", Val.pointer "demo.B" 0⟩]
    ⟨"B0", true, GoType.named "*demo.B", "b,prototype", Val.pointer "demo.B" 0⟩
    (failingFactory (Val.pointer "demo.B" 9) (GoError.custom 1 "no more B"))
    (GoError.custom 1 "no more B")
    rfl (by decide) (by decide) (by decide) rfl rfl
  ⟨key.1, key.2.2.1⟩

/-! ## The first failing field -/

/-- After a successful run every field was skipped or holds the value resolved for it in
the state reached after the fields before it. -/
theorem ensureFields_ok_get {σ : Type} [Assignability] (a : Bool) (fs : List Field) (st : State σ)
    (h : (ensureFields a fs st).outcome = Outcome.ok) (i : Nat) (f : Field)
    (hi : fs[i]? = some f) :
    (ensureFields a fs st).fields[i]? =
      some (if injectName f.tag = "" then f
        else { f with value :=
          (resolve f.tag (injectName f.tag) (ensureFields a (fs.take i) st).state).1.1 }) := by
  obtain ⟨hsplit, hlen⟩ := eq_take_cons_drop fs i f hi
  have key := ensureFields_ok_at a (fs.take i) (fs.drop (i + 1)) f st
    (by rw [← hsplit]; exact h)
  rw [← hsplit, hlen] at key
  exact key.2.2.1

/-- A run that returns an error stops at some field `f`: the fields before it are done
with success, `f` has a binding name, its resolution gives the error, and the run ends in
the state that resolution left. -/
theorem ensureFields_error_split {σ : Type} [Assignability] (a : Bool) (fs : List Field) (st : State σ)
    (e : GoError) (h : (ensureFields a fs st).outcome = Outcome.error e) :
    ∃ pre f post, fs = pre ++ f :: post ∧
      (ensureFields a pre st).outcome = Outcome.ok ∧
      injectName f.tag ≠ "" ∧
      ((resolve f.tag (injectName f.tag) (ensureFields a pre st).state).1.2 = some e ∨
        ((resolve f.tag (injectName f.tag) (ensureFields a pre st).state).1.2 = none ∧
         (resolve f.tag (injectName f.tag) (ensureFields a pre st).state).1.1 = Val.nil ∧
         e = GoError.errorString (injectName f.tag ++ " dependency not found"))) ∧
      (ensureFields a fs st).state =
        (resolve f.tag (injectName f.tag) (ensureFields a pre st).state).2 := by
  induction fs generalizing st with
  | nil => simp [ensureFields_nil] at h
  | cons f0 rest ih =>
    rcases ensureFields_cons_cases a f0 rest st with
      ⟨hn, e0⟩ | ⟨hn, o, ho, e0, why⟩ | ⟨hn, he, hv, hs, e0⟩
    · rw [e0] at h ⊢
      obtain ⟨pre, f, post, hsplit, hok, hname, hwhy, hstate⟩ := ih st h
      refine ⟨f0 :: pre, f, post, by rw [hsplit]; rfl, ?_, hname, ?_, ?_⟩
      · rw [ensureFields_skip a f0 pre st hn]; exact hok
      · rw [ensureFields_skip a f0 pre st hn]; exact hwhy
      · rw [ensureFields_skip a f0 pre st hn]; exact hstate
    · rw [e0] at h ⊢
      simp only at h
      subst h
      refine ⟨[], f0, rest, rfl, rfl, hn, ?_, rfl⟩
      rcases why with ⟨e1, h1, h2⟩ | ⟨h1, h1v, h2⟩ | ⟨_, _, _, h2⟩
      · cases h2; exact Or.inl h1
      · cases h2; exact Or.inr ⟨h1, h1v, rfl⟩
      · cases h2
    · rw [e0] at h ⊢
      obtain ⟨pre, f, post, hsplit, hok, hname, hwhy, hstate⟩ := ih _ h
      refine ⟨f0 :: pre, f, post, by rw [hsplit]; rfl, ?_, hname, ?_, ?_⟩
      · rw [ensureFields_set a f0 pre st hn he hv hs]; exact hok
      · rw [ensureFields_set a f0 pre st hn he hv hs]; exact hwhy
      · rw [ensureFields_set a f0 pre st hn he hv hs]; exact hstate

/-- The whole result of a run that stops with an error at `f`, whatever fields follow. -/
theorem ensureFields_stop_eq {σ : Type} [Assignability] (a : Bool) (pre : List Field) (f : Field)
    (st : State σ) (e : GoError)
    (hpre : (ensureFields a pre st).outcome = Outcome.ok)
    (hn : injectName f.tag ≠ "")
    (hwhy :
      (resolve f.tag (injectName f.tag) (ensureFields a pre st).state).1.2 = some e ∨
        ((resolve f.tag (injectName f.tag) (ensureFields a pre st).state).1.2 = none ∧
         (resolve f.tag (injectName f.tag) (ensureFields a pre st).state).1.1 = Val.nil ∧
         e = GoError.errorString (injectName f.tag ++ " dependency not found")))
    (post : List Field) :
    ensureFields a (pre ++ f :: post) st =
      ⟨Outcome.error e, (ensureFields a pre st).fields ++ f :: post,
        (resolve f.tag (injectName f.tag) (ensureFields a pre st).state).2⟩ := by
  rw [ensureFields_continue a pre post f st hpre]
  rcases hwhy with he | ⟨he, hv, rfl⟩
  · rw [ensureFields_error a f post _ e hn he]
  · rw [ensureFields_missing a f post _ hn he hv]

/-- C8: `Ensure` is fail-fast without rollback.  If it returns the error `e`, the fields are
`pre ++ f :: post` where the fields of `pre` resolve successfully and `f` is the first
field whose resolution fails; then every field of `pre` with a binding name holds the
value newly resolved for it (the others are as before), `f` and the fields after it hold
what they held before the call, and `e` is the error of `f` (the error of its factory, or
the dependency-not-found error for its binding name), whatever fields follow `f`. -/
theorem Ensure_fail_fast {σ : Type} [Assignability] (inst : Instance) (st : State σ) (e : GoError)
    (h : (Ensure inst st).outcome = Outcome.error e) :
    ∃ pre f post, inst.fields = pre ++ f :: post ∧
      (Ensure (inst.withFields pre) st).outcome = Outcome.ok ∧
      (∀ (j : Nat) (g : Field), pre[j]? = some g →
        (Ensure inst st).fields[j]? =
          some (if injectName g.tag = "" then g
            else { g with value :=
              (resolve g.tag (injectName g.tag)
                (Ensure (inst.withFields (pre.take j)) st).state).1.1 })) ∧
      (Ensure inst st).fields.drop pre.length = f :: post ∧
      injectName f.tag ≠ "" ∧
      ((resolve f.tag (injectName f.tag) (Ensure (inst.withFields pre) st).state).1.2 = some e ∨
        ((resolve f.tag (injectName f.tag) (Ensure (inst.withFields pre) st).state).1.2 = none ∧
         (resolve f.tag (injectName f.tag) (Ensure (inst.withFields pre) st).state).1.1
            = Val.nil ∧
         e = GoError.errorString (injectName f.tag ++ " dependency not found"))) ∧
      (∀ post2 : List Field,
        (Ensure (inst.withFields (pre ++ f :: post2)) st).outcome = Outcome.error e ∧
        (Ensure (inst.withFields (pre ++ f :: post2)) st).fields.drop pre.length
          = f :: post2) := by
  have hne : inst ≠ Instance.other := by
    rintro rfl
    simp [Ensure] at h
  rw [Ensure_eq_ensureFields inst st hne] at h ⊢
  obtain ⟨pre, f, post, hsplit, hok, hname, hwhy, _⟩ :=
    ensureFields_error_split _ _ st e h
  have stop := ensureFields_stop_eq inst.addressable pre f st e hok hname hwhy
  have hlen := ensureFields_length inst.addressable pre st
  refine ⟨pre, f, post, hsplit, ?_, ?_, ?_, hname, ?_, ?_⟩
  · rw [Ensure_withFields inst pre st hne]; exact hok
  · intro j g hj
    have hjlt : j < pre.length := by
      rcases Nat.lt_or_ge j pre.length with hlt | hge
      · exact hlt
      · rw [List.getElem?_eq_none hge] at hj; cases hj
    rw [Ensure_withFields inst _ st hne, hsplit, stop post]
    simp only
    rw [List.getElem?_append_left (by rw [hlen]; exact hjlt)]
    exact ensureFields_ok_get _ pre st hok j g hj
  · rw [hsplit, stop post]
    exact List.drop_left' hlen
  · rw [Ensure_withFields inst pre st hne]; exact hwhy
  · intro post2
    rw [Ensure_withFields inst _ st hne, stop post2]
    exact ⟨rfl, List.drop_left' hlen⟩

theorem Ensure_fail_fast_witness :
    (Ensure NewA (failingState (Val.pointer "sql.DB" 77) (Val.pointer "demo.B" 9)
      (GoError.custom 1 "no more B") 5)).outcome =
      Outcome.error (GoError.custom 1 "no more B") ∧
    ∃ pre f post, NewA.fields = pre ++ f :: post ∧
      (Ensure (NewA.withFields pre) (failingState (Val.pointer "sql.DB" 77)
        (Val.pointer "demo.B" 9) (GoError.custom 1 "no more B") 5)).outcome = Outcome.ok :=
  ⟨by decide,
    let ⟨pre, f, post, h1, h2, _⟩ := Ensure_fail_fast NewA
      (failingState (Val.pointer "sql.DB" 77) (Val.pointer "demo.B" 9)
        (GoError.custom 1 "no more B") 5) (GoError.custom 1 "no more B") (by decide)
    ⟨pre, f, post, h1, h2⟩⟩

/-! ## Consumers without annotated fields, and the registries -/

theorem injectName_empty : injectName "" = "" := by decide

theorem ensureFields_unannotated {σ : Type} [Assignability] (a : Bool) (fs : List Field) (st : State σ)
    (h : ∀ f ∈ fs, injectName f.tag = "") :
    ensureFields a fs st = ⟨Outcome.ok, fs, st⟩ := by
  induction fs with
  | nil => rfl
  | cons f rest ih =>
    rw [ensureFields_skip a f rest st (h f (List.mem_cons_self f rest)),
      ih (fun g hg => h g (List.mem_cons_of_mem f hg))]

theorem Registry.get_set_self {α : Type} (r : Registry α) (name : String) (v : α) :
    (r.set name v).get name = some v := by
  induction r with
  | nil => simp [Registry.set, Registry.get]
  | cons kv rest ih =>
    obtain ⟨k, w⟩ := kv
    by_cases hk : k = name
    · simp [Registry.set, Registry.get, hk]
    · simp [Registry.set, Registry.get, hk, ih]

/-- C9: for a consumer record none of whose fields has a binding name (its tag is missing
or empty, or its first token is empty), a record with no fields included, `Ensure`
returns success, leaves every field as it was, invokes no factory and leaves the
registries and the rest of the state as they were. -/
theorem Ensure_unannotated {σ : Type} [Assignability] (inst : Instance) (st : State σ)
    (hrecord : inst ≠ Instance.other)
    (h : ∀ f ∈ inst.fields, f.tag = "" ∨ injectName f.tag = "") :
    (Ensure inst st).outcome = Outcome.ok ∧
    (Ensure inst st).fields = inst.fields ∧
    (Ensure inst st).state.calls = st.calls ∧
    (Ensure inst st).state.container = st.container ∧
    (Ensure inst st).state = st := by
  have h2 : ∀ f ∈ inst.fields, injectName f.tag = "" := by
    intro f hf
    rcases h f hf with ht | hn
    · rw [ht]; exact injectName_empty
    · exact hn
  rw [Ensure_eq_ensureFields inst st hrecord,
    ensureFields_unannotated inst.addressable inst.fields st h2]
  exact ⟨rfl, rfl, rfl, rfl, rfl⟩

theorem Ensure_unannotated_witness :
    (Ensure (Instance.structPointer
        [⟨"Name", true, GoType.named "string", "", Val.scalar "string" 3⟩,
         ⟨"Gen", true, GoType.named "*demo.B", ",prototype", Val.pointer "demo.B" 0⟩])
      (mainState (Val.pointer "sql.DB" 77) 5)).fields =
      [⟨"Name", true, GoType.named "string", "", Val.scalar "string" 3⟩,
       ⟨"Gen", true, GoType.named "*demo.B", ",prototype", Val.pointer "demo.B" 0⟩] ∧
    (Ensure (Instance.structPointer []) (mainState (Val.pointer "sql.DB" 77) 5)).outcome
      = Outcome.ok :=
  ⟨(Ensure_unannotated
      (Instance.structPointer
        [⟨"Name", true, GoType.named "string", "", Val.scalar "string" 3⟩,
         ⟨"Gen", true, GoType.named "*demo.B", ",prototype", Val.pointer "demo.B" 0⟩])
      (mainState (Val.pointer "sql.DB" 77) 5) (by decide) (by decide)).2.1,
   (Ensure_unannotated (Instance.structPointer []) (mainState (Val.pointer "sql.DB" 77) 5)
      (by decide) (by decide)).1⟩

/-! ## Tags -/

theorem splitComma_ne_nil (cs : List Char) : splitComma cs ≠ [] := by
  cases cs with
  | nil => simp [splitComma]
  | cons c rest =>
    by_cases hc : c = ','
    · simp [splitComma, hc]
    · cases h : splitComma rest <;> simp [splitComma, hc, h]

/-- No token holds a comma. -/
theorem splitComma_no_comma (cs : List Char) : ∀ t ∈ splitComma cs, ',' ∉ t := by
  induction cs with
  | nil => simp [splitComma]
  | cons c rest ih =>
    by_cases hc : c = ','
    · intro t ht
      simp only [splitComma, hc, if_true, List.mem_cons] at ht
      rcases ht with rfl | ht
      · simp
      · exact ih t ht
    · cases h : splitComma rest with
      | nil => exact absurd h (splitComma_ne_nil rest)
      | cons t0 ts =>
        intro t ht
        simp only [splitComma, hc, if_false, h, List.mem_cons] at ht
        rw [h] at ih
        rcases ht with rfl | ht
        · intro hmem
          rcases List.mem_cons.1 hmem with h1 | h1
          · exact hc h1.symm
          · exact ih t0 (List.mem_cons_self _ _) h1
        · exact ih t (List.mem_cons_of_mem _ ht)

/-- Joining the tokens with commas gives the text back. -/
theorem intercalate_splitComma (cs : List Char) :
    [','].intercalate (splitComma cs) = cs := by
  induction cs with
  | nil => simp [splitComma, List.intercalate]
  | cons c rest ih =>
    cases h : splitComma rest with
    | nil => exact absurd h (splitComma_ne_nil rest)
    | cons t0 ts =>
      rw [h] at ih
      by_cases hc : c = ','
      · simp only [splitComma, hc, if_true, h]
        simp only [List.intercalate, List.intersperse, List.flatten, List.nil_append,
          List.singleton_append] at ih ⊢
        rw [ih]
      · simp only [splitComma, hc, if_false, h]
        cases ts with
        | nil =>
          simp only [List.intercalate, List.intersperse, List.flatten, List.append_nil]
            at ih ⊢
          rw [ih]
        | cons t1 ts2 =>
          simp only [List.intercalate, List.intersperse, List.flatten, List.cons_append]
            at ih ⊢
          rw [ih]

theorem Split_ne_nil (tag : String) : Split tag ≠ [] := by
  simp [Split, splitComma_ne_nil]

theorem isPrototypeLoop_iff_mem (tokens : List String) :
    isPrototypeLoop tokens = true ↔ "prototype" ∈ tokens := by
  induction tokens with
  | nil => simp [isPrototypeLoop]
  | cons t ts ih =>
    by_cases h : t = "prototype"
    · simp [isPrototypeLoop, h]
    · have h2 : ¬ "prototype" = t := fun e => h e.symm
      simp [isPrototypeLoop, h, h2, ih]

theorem Split_data (tag : String) : (Split tag).map String.data = splitComma tag.data := by
  simp [Split, List.map_map, Function.comp_def]

/-! ## Claims about tags -/

/-- C11, as stated, fails for a tag whose first token is `"prototype"`: the tag `"prototype"`
has the one token `"prototype"`, which is its binding name, no token follows it, and
`isPrototype` still holds of it. -/
theorem isPrototype_first_token_counterexample :
    Split "prototype" = ["prototype"] ∧
    injectName "prototype" = "prototype" ∧
    (Split "prototype").tail = [] ∧
    isPrototypeSpec "prototype" = false ∧
    isPrototype "prototype" = true := by
  decide

/-- C11, amended: the tag is split on commas into tokens (no token holds a comma, and the
tokens joined by commas are the tag); `injectName(tag)` is the first token;
`isPrototype(tag)` holds if and only if the literal token `"prototype"` occurs among all
the tokens, the first one included, and otherwise the policy is singleton.  When the
binding name is not itself `"prototype"`, this is the rule of the spec (the token occurs
after the first one).  `"Prototype"`, `" prototype"` and `"prototypes"` leave the policy
as singleton. -/
theorem tag_parsing (tag : String) :
    ((∀ t ∈ Split tag, ',' ∉ t.data) ∧
      [','].intercalate ((Split tag).map String.data) = tag.data) ∧
    (∃ rest, Split tag = injectName tag :: rest) ∧
    (isPrototype tag = true ↔ "prototype" ∈ Split tag) ∧
    (isPrototype tag = false → isSingleton tag = true) ∧
    (injectName tag ≠ "prototype" → isPrototype tag = isPrototypeSpec tag) ∧
    (isPrototype "db,Prototype" = false ∧ isSingleton "db,Prototype" = true ∧
      isPrototype "db, prototype" = false ∧ isSingleton "db, prototype" = true ∧
      isPrototype "db,prototypes" = false ∧ isSingleton "db,prototypes" = true) := by
  have hsplit : ∃ rest, Split tag = injectName tag :: rest := by
    unfold injectName
    cases h : Split tag with
    | nil => exact absurd h (Split_ne_nil tag)
    | cons t ts => exact ⟨ts, rfl⟩
  refine ⟨⟨?_, ?_⟩, hsplit, isPrototypeLoop_iff_mem (Split tag), ?_, ?_, by decide⟩
  · intro t ht
    have : t.data ∈ (Split tag).map String.data := List.mem_map_of_mem _ ht
    rw [Split_data] at this
    exact splitComma_no_comma tag.data _ this
  · rw [Split_data]
    exact intercalate_splitComma tag.data
  · intro h
    rw [isSingleton_eq_not, h]
    rfl
  · intro hname
    obtain ⟨rest, hrest⟩ := hsplit
    have hne : ¬ "prototype" = injectName tag := fun e => hname e.symm
    have h1 : isPrototype tag = decide ("prototype" ∈ Split tag) := by
      rw [Bool.eq_iff_iff, decide_eq_true_iff]
      exact isPrototypeLoop_iff_mem (Split tag)
    rw [h1, isPrototypeSpec, hrest]
    simp [hne]

theorem tag_parsing_witness :
    (isPrototype "db" = false ∧ isSingleton "db" = true) ∧
    (injectName "b,prototype" ≠ "prototype" ∧
      isPrototype "b,prototype" = isPrototypeSpec "b,prototype") :=
  ⟨⟨by decide, (tag_parsing "db").2.2.2.1 (by decide)⟩,
    ⟨by decide, (tag_parsing "b,prototype").2.2.2.2.1 (by decide)⟩⟩

/-- C18: `isSingleton(tag)` is the exact negation of `isPrototype(tag)`, so the resolution of a
field with tag `tag` takes exactly one of the two paths: either the singleton lookup alone
(no factory is looked up or invoked, no error can arise) or the factory path of
`GetPrototype` alone (whose result replaces the nil value the field starts from). -/
theorem exactly_one_policy {σ : Type} (tag diName : String) (st : State σ) :
    isSingleton tag = !isPrototype tag ∧
    ((isSingleton tag = true ∧ isPrototype tag = false ∧
        resolve tag diName st = (((GetSingleton diName st).1, none), st)) ∨
     (isSingleton tag = false ∧ isPrototype tag = true ∧
        resolve tag diName st = GetPrototype diName st)) := by
  refine ⟨isSingleton_eq_not tag, ?_⟩
  cases h : isPrototype tag
  · exact Or.inl ⟨by rw [isSingleton_eq_not, h]; rfl, rfl, resolve_singleton tag diName st h⟩
  · exact Or.inr ⟨by rw [isSingleton_eq_not, h]; rfl, rfl, resolve_prototype tag diName st h⟩

/-! ## Registration -/

theorem Registry.get_set_other {α : Type} (r : Registry α) (name other : String) (v : α)
    (h : other ≠ name) : (r.set name v).get other = r.get other := by
  induction r with
  | nil =>
    have h2 : ¬ name = other := fun e => h e.symm
    simp [Registry.set, Registry.get, h2]
  | cons kv rest ih =>
    obtain ⟨k, w⟩ := kv
    by_cases hk : k = name
    · subst hk
      have h2 : ¬ k = other := fun e => h e.symm
      simp [Registry.set, Registry.get, h2]
    · by_cases hk2 : k = other
      · subst hk2
        simp [Registry.set, Registry.get, hk]
      · simp [Registry.set, Registry.get, hk, hk2, ih]

theorem GetSingleton_SetSingleton {σ : Type} (name : String) (v : Val) (st : State σ) :
    (GetSingleton name (SetSingleton name v st)).1 = v := by
  simp [GetSingleton, SetSingleton, Registry.get_set_self]

theorem Ensure_container {σ : Type} [Assignability] (inst : Instance) (st : State σ) :
    (Ensure inst st).state.container = st.container := by
  cases inst with
  | structPointer fs => exact ensureFields_container true fs st
  | nilStructPointer fs => exact ensureFields_container false fs st
  | other => rfl

theorem Ensure_singleton_ok {σ : Type} [Assignability] (inst : Instance) (st : State σ)
    (h : (Ensure inst st).outcome = Outcome.ok) (i : Nat) (f : Field)
    (hi : inst.fields[i]? = some f) (hn : injectName f.tag ≠ "")
    (hs : isSingleton f.tag = true) :
    (Ensure inst st).fields[i]? =
      some { f with value := (GetSingleton (injectName f.tag) st).1 } := by
  have hne := Ensure_ok_ne_other inst st h
  rw [Ensure_eq_ensureFields inst st hne] at h ⊢
  exact ensureFields_singleton_ok _ _ _ h i f hi hn hs

/-- C12: `SetSingleton(n, v)` stores or overwrites.  Afterwards `GetSingleton(n)` returns `v`,
`GetSingleton(m)` is what it was for every other name `m`, and the factory registry, the
ambient state and the log are what they were.  So after `n` is registered again with the
value `H2`, an `Ensure` that succeeds on any consumer leaves `H2` in every singleton-policy
field naming `n`.  A consumer filled by an earlier successful `Ensure` holds the value
registered then (registration acts on the container, not on a consumer), and gets `H2`
when it is passed to a successful `Ensure` again. -/
theorem SetSingleton_overwrites {σ : Type} [Assignability] (n : String) (H2 : Val) (st : State σ) :
    (GetSingleton n (SetSingleton n H2 st)).1 = H2 ∧
    (∀ m : String, m ≠ n →
      (GetSingleton m (SetSingleton n H2 st)).1 = (GetSingleton m st).1) ∧
    ((SetSingleton n H2 st).container.factories = st.container.factories ∧
      (SetSingleton n H2 st).ambient = st.ambient ∧
      (SetSingleton n H2 st).calls = st.calls) ∧
    (∀ (inst : Instance) (st2 : State σ),
      st2.container = (SetSingleton n H2 st).container →
      (Ensure inst st2).outcome = Outcome.ok →
      ∀ (i : Nat) (f : Field), inst.fields[i]? = some f → injectName f.tag = n → n ≠ "" →
        isSingleton f.tag = true →
        (Ensure inst st2).fields[i]? = some { f with value := H2 }) ∧
    (∀ inst : Instance, (Ensure inst st).outcome = Outcome.ok →
      ∀ (i : Nat) (f : Field), inst.fields[i]? = some f → injectName f.tag = n → n ≠ "" →
        isSingleton f.tag = true →
        (Ensure inst st).fields[i]? = some { f with value := (GetSingleton n st).1 } ∧
        ((Ensure (inst.withFields (Ensure inst st).fields)
            (SetSingleton n H2 (Ensure inst st).state)).outcome = Outcome.ok →
          (Ensure (inst.withFields (Ensure inst st).fields)
            (SetSingleton n H2 (Ensure inst st).state)).fields[i]?
              = some { f with value := H2 })) := by
  have after : ∀ (inst : Instance) (st2 : State σ),
      st2.container = (SetSingleton n H2 st).container →
      (Ensure inst st2).outcome = Outcome.ok →
      ∀ (i : Nat) (f : Field), inst.fields[i]? = some f → injectName f.tag = n → n ≠ "" →
        isSingleton f.tag = true →
        (Ensure inst st2).fields[i]? = some { f with value := H2 } := by
    intro inst st2 hc hok i f hi hname hn hs
    subst hname
    rw [Ensure_singleton_ok inst st2 hok i f hi hn hs,
      GetSingleton_congr _ (SetSingleton (injectName f.tag) H2 st) st2 hc,
      GetSingleton_SetSingleton]
  refine ⟨GetSingleton_SetSingleton n H2 st, ?_, ⟨rfl, rfl, rfl⟩, after, ?_⟩
  · intro m hm
    simp [GetSingleton, SetSingleton, Registry.get_set_other _ n m H2 hm]
  · intro inst hok i f hi hname hn hs
    have hne := Ensure_ok_ne_other inst st hok
    have first : (Ensure inst st).fields[i]? =
        some { f with value := (GetSingleton n st).1 } := by
      rw [Ensure_singleton_ok inst st hok i f hi (hname ▸ hn) hs, hname]
    refine ⟨first, fun hok2 => ?_⟩
    have hc : (SetSingleton n H2 (Ensure inst st).state).container =
        (SetSingleton n H2 st).container := by
      simp [SetSingleton, Ensure_container]
    have := after (inst.withFields (Ensure inst st).fields)
      (SetSingleton n H2 (Ensure inst st).state) hc hok2 i
      { f with value := (GetSingleton n st).1 }
      (by rw [withFields_fields inst _ hne]; exact first) hname hn hs
    exact this

theorem SetSingleton_overwrites_witness :
    (Ensure NewA
      (SetSingleton "db" (Val.pointer "sql.DB" 88)
        (mainState (Val.pointer "sql.DB" 77) 5))).fields[0]? =
      some { (⟨"Db0", true, GoType.named "*sql.DB", "db", Val.pointer "sql.DB" 0⟩ : Field)
        with value := Val.pointer "sql.DB" 88 } :=
  (SetSingleton_overwrites "db" (Val.pointer "sql.DB" 88)
      (mainState (Val.pointer "sql.DB" 77) 5)).2.2.2.1 NewA
    (SetSingleton "db" (Val.pointer "sql.DB" 88) (mainState (Val.pointer "sql.DB" 77) 5))
    rfl (by decide) 0 ⟨"Db0", true, GoType.named "*sql.DB", "db", Val.pointer "sql.DB" 0⟩
    (by decide) (by decide) (by decide) (by decide)

/-! ## Skipped fields -/

theorem eraseIdx_append_cons_length {α : Type} (l₁ l₂ : List α) (x : α) (n : Nat)
    (h : l₁.length = n) : (l₁ ++ x :: l₂).eraseIdx n = l₁ ++ l₂ := by
  subst h
  induction l₁ with
  | nil => simp
  | cons y ys ih => simpa using ih

/-- A field without a binding name does not take part in the run: with the field or without
it the run has the same outcome and ends in the same state, and the other fields end the
same; the field itself is left as it was. -/
theorem ensureFields_skipped {σ : Type} [Assignability] (a : Bool) (pre post : List Field) (f : Field)
    (st : State σ) (hn : injectName f.tag = "") :
    (ensureFields a (pre ++ f :: post) st).outcome = (ensureFields a (pre ++ post) st).outcome ∧
    (ensureFields a (pre ++ f :: post) st).state = (ensureFields a (pre ++ post) st).state ∧
    (ensureFields a (pre ++ f :: post) st).fields[pre.length]? = some f ∧
    (ensureFields a (pre ++ f :: post) st).fields.eraseIdx pre.length =
      (ensureFields a (pre ++ post) st).fields := by
  have hlen := ensureFields_length a pre st
  rw [ensureFields_append a pre (f :: post) st, ensureFields_append a pre post st]
  by_cases hp : (ensureFields a pre st).outcome = Outcome.ok
  · simp only [hp, if_true]
    rw [ensureFields_skip a f post _ hn]
    exact ⟨rfl, rfl, getElem?_append_cons_length _ _ _ _ hlen,
      eraseIdx_append_cons_length _ _ _ _ hlen⟩
  · rw [if_neg hp, if_neg hp]
    exact ⟨rfl, rfl, getElem?_append_cons_length _ _ _ _ hlen,
      eraseIdx_append_cons_length _ _ _ _ hlen⟩

theorem injectName_comma_prototype : injectName ",prototype" = "" := by decide

/-- C13: a field whose tag is missing or empty, or whose first token is empty (as in
`",prototype"`), is skipped by `Ensure`.  However the call ends, the field holds afterwards
what it held before, and the call has the outcome, the final state (registries, ambient
state, log of factory invocations) and the other fields it has on the consumer without that
field: the field causes no lookup failure, no factory invocation and no error.  On success
every field with a binding name holds exactly the one value resolved for it. -/
theorem Ensure_skips_unannotated {σ : Type} [Assignability] (inst : Instance) (st : State σ) :
    (∀ (pre post : List Field) (f : Field), inst.fields = pre ++ f :: post →
      (f.tag = "" ∨ injectName f.tag = "") →
      (Ensure inst st).fields[pre.length]? = some f ∧
      (Ensure inst st).outcome = (Ensure (inst.withFields (pre ++ post)) st).outcome ∧
      (Ensure inst st).state = (Ensure (inst.withFields (pre ++ post)) st).state ∧
      (Ensure inst st).fields.eraseIdx pre.length =
        (Ensure (inst.withFields (pre ++ post)) st).fields) ∧
    ((Ensure inst st).outcome = Outcome.ok →
      ∀ (i : Nat) (g : Field), inst.fields[i]? = some g → injectName g.tag ≠ "" →
        (Ensure inst st).fields[i]? =
          some { g with value :=
            (resolve g.tag (injectName g.tag)
              (Ensure (inst.withFields (inst.fields.take i)) st).state).1.1 }) ∧
    injectName "" = "" ∧ injectName ",prototype" = "" := by
  refine ⟨?_, ?_, injectName_empty, injectName_comma_prototype⟩
  · intro pre post f hfields htag
    have hn : injectName f.tag = "" := by
      rcases htag with ht | hn
      · rw [ht]; exact injectName_empty
      · exact hn
    have hne := fields_ne_other inst pre post f hfields
    rw [Ensure_eq_ensureFields inst st hne, Ensure_withFields inst _ st hne, hfields]
    have key := ensureFields_skipped inst.addressable pre post f st hn
    exact ⟨key.2.2.1, key.1, key.2.1, key.2.2.2⟩
  · intro hok i g hi hn
    have hne := Ensure_ok_ne_other inst st hok
    rw [Ensure_eq_ensureFields inst st hne] at hok ⊢
    rw [Ensure_withFields inst _ st hne,
      ensureFields_ok_get _ _ st hok i g hi, if_neg hn]

theorem Ensure_skips_unannotated_witness :
    (Ensure (Instance.structPointer
        [⟨"Gen", true, GoType.named "*demo.B", ",prototype", Val.pointer "demo.B" 0⟩,
         ⟨"Cache", true, GoType.named "*demo.Cache", "cache", Val.pointer "demo.Cache" 0⟩])
      (mainState (Val.pointer "sql.DB" 77) 5)).fields[0]? =
      some ⟨"Gen", true, GoType.named "*demo.B", ",prototype", Val.pointer "demo.B" 0⟩ ∧
    (Ensure NewA (mainState (Val.pointer "sql.DB" 77) 5)).fields[3]? =
      some { (⟨"B1", true, GoType.named "*demo.B", "b,prototype", Val.pointer "demo.B" 0⟩ :
          Field) with value :=
        (resolve "b,prototype" (injectName "b,prototype")
          (Ensure (NewA.withFields (NewA.fields.take 3))
            (mainState (Val.pointer "sql.DB" 77) 5)).state).1.1 } :=
  ⟨((Ensure_skips_unannotated
      (Instance.structPointer
        [⟨"Gen", true, GoType.named "*demo.B", ",prototype", Val.pointer "demo.B" 0⟩,
         ⟨"Cache", true, GoType.named "*demo.Cache", "cache", Val.pointer "demo.Cache" 0⟩])
      (mainState (Val.pointer "sql.DB" 77) 5)).1 []
      [⟨"Cache", true, GoType.named "*demo.Cache", "cache", Val.pointer "demo.Cache" 0⟩]
      ⟨"Gen", true, GoType.named "*demo.B", ",prototype", Val.pointer "demo.B" 0⟩
      rfl (Or.inr (by decide))).1,
   (Ensure_skips_unannotated NewA (mainState (Val.pointer "sql.DB" 77) 5)).2.1 (by decide) 3
      ⟨"B1", true, GoType.named "*demo.B", "b,prototype", Val.pointer "demo.B" 0⟩
      (by decide) (by decide)⟩

/-! ## Panics of `reflect` -/

/-- A run that panics stops at some field `f`: the fields before it are done with success,
and `f` has a binding name and a non-nil value resolved without error that cannot be set. -/
theorem ensureFields_panic_split {σ : Type} [Assignability] (a : Bool) (fs : List Field) (st : State σ)
    (h : (ensureFields a fs st).outcome = Outcome.panic) :
    ∃ pre f post, fs = pre ++ f :: post ∧
      (ensureFields a pre st).outcome = Outcome.ok ∧
      injectName f.tag ≠ "" ∧
      (resolve f.tag (injectName f.tag) (ensureFields a pre st).state).1.2 = none ∧
      (resolve f.tag (injectName f.tag) (ensureFields a pre st).state).1.1 ≠ Val.nil ∧
      (a && f.exported &&
        assignableTo (resolve f.tag (injectName f.tag) (ensureFields a pre st).state).1.1
          f.typ) = false := by
  induction fs generalizing st with
  | nil => simp [ensureFields_nil] at h
  | cons f0 rest ih =>
    rcases ensureFields_cons_cases a f0 rest st with
      ⟨hn, e0⟩ | ⟨hn, o, ho, e0, why⟩ | ⟨hn, he, hv, hs, e0⟩
    · rw [e0] at h
      obtain ⟨pre, f, post, hsplit, hok, hname, h1, h2, h3⟩ := ih st h
      refine ⟨f0 :: pre, f, post, by rw [hsplit]; rfl, ?_, hname, ?_, ?_, ?_⟩
      · rw [ensureFields_skip a f0 pre st hn]; exact hok
      · rw [ensureFields_skip a f0 pre st hn]; exact h1
      · rw [ensureFields_skip a f0 pre st hn]; exact h2
      · rw [ensureFields_skip a f0 pre st hn]; exact h3
    · rw [e0] at h
      simp only at h
      subst h
      rcases why with ⟨e1, _, h2⟩ | ⟨_, _, h2⟩ | ⟨h1, h1v, h1s, _⟩
      · cases h2
      · cases h2
      · exact ⟨[], f0, rest, rfl, rfl, hn, h1, h1v, h1s⟩
    · rw [e0] at h
      obtain ⟨pre, f, post, hsplit, hok, hname, h1, h2, h3⟩ := ih _ h
      refine ⟨f0 :: pre, f, post, by rw [hsplit]; rfl, ?_, hname, ?_, ?_, ?_⟩
      · rw [ensureFields_set a f0 pre st hn he hv hs]; exact hok
      · rw [ensureFields_set a f0 pre st hn he hv hs]; exact h1
      · rw [ensureFields_set a f0 pre st hn he hv hs]; exact h2
      · rw [ensureFields_set a f0 pre st hn he hv hs]; exact h3

/-- The whole result of a run that panics at `f`. -/
theorem ensureFields_panic_eq {σ : Type} [Assignability] (a : Bool) (pre post : List Field) (f : Field)
    (st : State σ)
    (hpre : (ensureFields a pre st).outcome = Outcome.ok)
    (hn : injectName f.tag ≠ "")
    (he : (resolve f.tag (injectName f.tag) (ensureFields a pre st).state).1.2 = none)
    (hv : (resolve f.tag (injectName f.tag) (ensureFields a pre st).state).1.1 ≠ Val.nil)
    (hs : (a && f.exported &&
        assignableTo (resolve f.tag (injectName f.tag) (ensureFields a pre st).state).1.1
          f.typ) = false) :
    ensureFields a (pre ++ f :: post) st =
      ⟨Outcome.panic, (ensureFields a pre st).fields ++ f :: post,
        (resolve f.tag (injectName f.tag) (ensureFields a pre st).state).2⟩ := by
  rw [ensureFields_continue a pre post f st hpre, ensureFields_panic a f post _ hn he hv hs]

/-! ## Claims about type mismatch and panics -/

/-- C14: when the fields before field `f` resolve successfully and the value resolved for `f`
is non-nil, comes without error and has a runtime type that is not assignable to the
declared type of `f` (by the assignability of Go, whatever that relation is between
different types), `Ensure` does not report success and returns no error either: the call
aborts with the panic of `reflect.Value.Set`.  Neither the value nor anything else is
stored in `f`, and the later fields are not touched. -/
theorem Ensure_type_mismatch {σ : Type} [Assignability] (inst : Instance) (st : State σ)
    (pre post : List Field) (f : Field)
    (hfields : inst.fields = pre ++ f :: post)
    (hpre : (Ensure (inst.withFields pre) st).outcome = Outcome.ok)
    (hn : injectName f.tag ≠ "")
    (he : (resolve f.tag (injectName f.tag)
      (Ensure (inst.withFields pre) st).state).1.2 = none)
    (hv : (resolve f.tag (injectName f.tag)
      (Ensure (inst.withFields pre) st).state).1.1 ≠ Val.nil)
    (hmis : assignableTo (resolve f.tag (injectName f.tag)
      (Ensure (inst.withFields pre) st).state).1.1 f.typ = false) :
    (Ensure inst st).outcome = Outcome.panic ∧
    (Ensure inst st).outcome ≠ Outcome.ok ∧
    (Ensure inst st).fields = (Ensure (inst.withFields pre) st).fields ++ f :: post ∧
    (Ensure inst st).fields[pre.length]? = some f := by
  have hne := fields_ne_other inst pre post f hfields
  rw [Ensure_withFields inst pre st hne] at hpre he hv hmis ⊢
  rw [Ensure_eq_ensureFields inst st hne, hfields,
    ensureFields_panic_eq _ pre post f st hpre hn he hv (by rw [hmis]; simp)]
  exact ⟨rfl, by simp, rfl,
    getElem?_append_cons_length _ _ _ _ (ensureFields_length _ pre st)⟩

theorem Ensure_type_mismatch_witness :
    (Ensure (Instance.structPointer
        [⟨"Db0", true, GoType.named "*sql.DB", "db", Val.pointer "sql.DB" 0⟩,
         ⟨"B0", true, GoType.named "*demo.B", "db", Val.pointer "demo.B" 0⟩])
      (mainState (Val.pointer "sql.DB" 77) 5)).outcome = Outcome.panic ∧
    (Ensure (Instance.structPointer
        [⟨"Db0", true, GoType.named "*sql.DB", "db", Val.pointer "sql.DB" 0⟩,
         ⟨"B0", true, GoType.named "*demo.B", "db", Val.pointer "demo.B" 0⟩])
      (mainState (Val.pointer "sql.DB" 77) 5)).fields[1]? =
      some ⟨"B0", true, GoType.named "*demo.B", "db", Val.pointer "demo.B" 0⟩ :=
  have key := Ensure_type_mismatch
    (Instance.structPointer
      [⟨"Db0", true, GoType.named "*sql.DB", "db", Val.pointer "sql.DB" 0⟩,
       ⟨"B0", true, GoType.named "*demo.B", "db", Val.pointer "demo.B" 0⟩])
    (mainState (Val.pointer "sql.DB" 77) 5)
    [⟨"Db0", true, GoType.named "*sql.DB", "db", Val.pointer "sql.DB" 0⟩] []
    ⟨"B0", true, GoType.named "*demo.B", "db", Val.pointer "demo.B" 0⟩
    rfl (by decide) (by decide) (by decide) (by decide) (by decide)
  ⟨key.1, key.2.2.2⟩

/-- A value whose type is assignable to the type of the field without being identical to
it is stored, and `Ensure` goes on: a `di.IntSlice` in a field of type `[]int`, a
`*demo.File` in a field of type `io.Reader`. -/
theorem Ensure_stores_assignable_value :
    (@Ensure Nat sliceTypes
      (Instance.structPointer
        [⟨"Xs", true, GoType.named "[]int", "xs", Val.scalar "[]int" 0⟩,
         ⟨"In", true, GoType.named "io.Reader", "in", Val.nil⟩])
      (SetSingleton "in" (Val.pointer "demo.File" 8)
        (SetSingleton "xs" (Val.scalar "di.IntSlice" 9)
          (mainState (Val.pointer "sql.DB" 77) 5)))).outcome = Outcome.ok ∧
    (@Ensure Nat sliceTypes
      (Instance.structPointer
        [⟨"Xs", true, GoType.named "[]int", "xs", Val.scalar "[]int" 0⟩,
         ⟨"In", true, GoType.named "io.Reader", "in", Val.nil⟩])
      (SetSingleton "in" (Val.pointer "demo.File" 8)
        (SetSingleton "xs" (Val.scalar "di.IntSlice" 9)
          (mainState (Val.pointer "sql.DB" 77) 5)))).fields.map Field.value =
      [Val.scalar "di.IntSlice" 9, Val.pointer "demo.File" 8] := by
  decide

/-- C15, as stated, fails: `Ensure` ends in a panic, not in a returned error, when a resolved
value does not fit the type of its field (the singleton `"db"` is a `*demo.B`, the field a
`*sql.DB`), when an annotated field is unexported, and when the argument is not a pointer
to a struct. -/
theorem Ensure_panics_counterexample :
    (Ensure NewA (mainState (Val.pointer "demo.B" 3) 5)).outcome = Outcome.panic ∧
    (Ensure (Instance.structPointer
        [⟨"db", false, GoType.named "*sql.DB", "db", Val.pointer "sql.DB" 0⟩])
      (mainState (Val.pointer "sql.DB" 77) 5)).outcome = Outcome.panic ∧
    (Ensure Instance.other (mainState (Val.pointer "sql.DB" 77) 5)).outcome
      = Outcome.panic := by
  decide

/-- C15, amended: a failure of resolution inside `Ensure` is an ordinary returned error.  When
the fields before field `f` resolve successfully and the resolution of `f` gives an error
(no factory under the name, or the error of the factory) or gives nil without error,
`Ensure` returns that error, or the dependency-not-found error, to its caller.  Not every
failure is a returned error, though: `Ensure` ends in a panic when its argument is not a
pointer to a struct, and when the value resolved for `f` is non-nil and comes without error
but cannot be stored in `f` because the struct pointer is nil, `f` is unexported, or the
type of the value is not assignable to the type of `f`. -/
theorem Ensure_failures {σ : Type} [Assignability] (inst : Instance) (st : State σ) :
    (inst = Instance.other → (Ensure inst st).outcome = Outcome.panic) ∧
    (∀ (pre post : List Field) (f : Field), inst.fields = pre ++ f :: post →
      (Ensure (inst.withFields pre) st).outcome = Outcome.ok →
      injectName f.tag ≠ "" →
      (resolve f.tag (injectName f.tag)
        (Ensure (inst.withFields pre) st).state).1.2 = none →
      (resolve f.tag (injectName f.tag)
        (Ensure (inst.withFields pre) st).state).1.1 ≠ Val.nil →
      (inst.addressable = false ∨ f.exported = false ∨
        assignableTo (resolve f.tag (injectName f.tag)
          (Ensure (inst.withFields pre) st).state).1.1 f.typ = false) →
      (Ensure inst st).outcome = Outcome.panic) ∧
    (∀ (pre post : List Field) (f : Field) (e : GoError), inst.fields = pre ++ f :: post →
      (Ensure (inst.withFields pre) st).outcome = Outcome.ok →
      injectName f.tag ≠ "" →
      ((resolve f.tag (injectName f.tag)
          (Ensure (inst.withFields pre) st).state).1.2 = some e ∨
        ((resolve f.tag (injectName f.tag)
            (Ensure (inst.withFields pre) st).state).1.2 = none ∧
         (resolve f.tag (injectName f.tag)
            (Ensure (inst.withFields pre) st).state).1.1 = Val.nil ∧
         e = GoError.errorString (injectName f.tag ++ " dependency not found"))) →
      (Ensure inst st).outcome = Outcome.error e) := by
  refine ⟨?_, ?_, ?_⟩
  · rintro rfl
    rfl
  · intro pre post f hfields hpre hn he hv hwhy
    have hne := fields_ne_other inst pre post f hfields
    rw [Ensure_withFields inst pre st hne] at hpre he hv hwhy
    have hs : (inst.addressable && f.exported &&
        assignableTo (resolve f.tag (injectName f.tag)
          (ensureFields inst.addressable pre st).state).1.1 f.typ) = false := by
      rcases hwhy with h | h | h <;> rw [h] <;> simp
    rw [Ensure_eq_ensureFields inst st hne, hfields,
      ensureFields_panic_eq _ pre post f st hpre hn he hv hs]
  · intro pre post f e hfields hpre hn hwhy
    have hne := fields_ne_other inst pre post f hfields
    rw [Ensure_withFields inst pre st hne] at hpre hwhy
    rw [Ensure_eq_ensureFields inst st hne, hfields,
      ensureFields_stop_eq _ pre f st e hpre hn hwhy post]

theorem Ensure_failures_witness :
    (Ensure (Instance.structPointer
        [⟨"Db0", true, GoType.named "*sql.DB", "db", Val.pointer "sql.DB" 0⟩,
         ⟨"db1", false, GoType.named "*sql.DB", "db", Val.pointer "sql.DB" 0⟩])
      (mainState (Val.pointer "sql.DB" 77) 5)).outcome = Outcome.panic ∧
    (Ensure (Instance.structPointer
        [⟨"Db0", true, GoType.named "*sql.DB", "db", Val.pointer "sql.DB" 0⟩,
         ⟨"Cache", true, GoType.named "*demo.Cache", "cache", Val.pointer "demo.Cache" 0⟩])
      (mainState (Val.pointer "sql.DB" 77) 5)).outcome =
      Outcome.error (GoError.errorString "cache dependency not found") :=
  ⟨(Ensure_failures
      (Instance.structPointer
        [⟨"Db0", true, GoType.named "*sql.DB", "db", Val.pointer "sql.DB" 0⟩,
         ⟨"db1", false, GoType.named "*sql.DB", "db", Val.pointer "sql.DB" 0⟩])
      (mainState (Val.pointer "sql.DB" 77) 5)).2.1
      [⟨"Db0", true, GoType.named "*sql.DB", "db", Val.pointer "sql.DB" 0⟩] []
      ⟨"db1", false, GoType.named "*sql.DB", "db", Val.pointer "sql.DB" 0⟩
      rfl (by decide) (by decide) (by decide) (by decide) (Or.inr (Or.inl rfl)),
   (Ensure_failures
      (Instance.structPointer
        [⟨"Db0", true, GoType.named "*sql.DB", "db", Val.pointer "sql.DB" 0⟩,
         ⟨"Cache", true, GoType.named "*demo.Cache", "cache", Val.pointer "demo.Cache" 0⟩])
      (mainState (Val.pointer "sql.DB" 77) 5)).2.2
      [⟨"Db0", true, GoType.named "*sql.DB", "db", Val.pointer "sql.DB" 0⟩] []
      ⟨"Cache", true, GoType.named "*demo.Cache", "cache", Val.pointer "demo.Cache" 0⟩
      (GoError.errorString "cache dependency not found")
      rfl (by decide) (by decide) (Or.inr (by decide))⟩

/-! ## The lines of `String` -/

theorem typeName_eq_none (v : Val) : v.typeName = none ↔ v = Val.nil := by
  cases v <;> simp [Val.typeName]

theorem entryLine_begins (name : String) (addr : Nat) (typ : String) :
    ∃ rest, entryLine name addr typ = "  " ++ name ++ rest :=
  ⟨": " ++ hex addr ++ " " ++ typ, by simp [entryLine, String.append_assoc]⟩

theorem singletonLines_some (itemAddr : Nat → Nat) (r : Registry Val) (lines : List String)
    (h : ∀ kv ∈ r, kv.2 ≠ Val.nil) :
    ∃ sl, singletonLines itemAddr r lines = some (lines ++ sl) ∧
      List.Forall₂ (fun kv line => ∃ rest, line = "  " ++ kv.1 ++ rest) r sl := by
  induction r generalizing lines with
  | nil => exact ⟨[], by simp [singletonLines], List.Forall₂.nil⟩
  | cons kv rest ih =>
    obtain ⟨name, item⟩ := kv
    cases ht : item.typeName with
    | none =>
      exact absurd ((typeName_eq_none item).1 ht) (h (name, item) (List.mem_cons_self _ _))
    | some typ =>
      obtain ⟨sl, hsl, hall⟩ :=
        ih (lines ++ [entryLine name (itemAddr lines.length) typ])
          (fun kv hkv => h kv (List.mem_cons_of_mem _ hkv))
      refine ⟨entryLine name (itemAddr lines.length) typ :: sl, ?_,
        List.Forall₂.cons (entryLine_begins name _ typ) hall⟩
      simp only [singletonLines, ht]
      rw [hsl, List.append_assoc]
      rfl

theorem singletonLines_none (itemAddr : Nat → Nat) (r : Registry Val) (lines : List String) :
    singletonLines itemAddr r lines = none ↔ ∃ kv ∈ r, kv.2 = Val.nil := by
  induction r generalizing lines with
  | nil => simp [singletonLines]
  | cons kv rest ih =>
    obtain ⟨name, item⟩ := kv
    cases ht : item.typeName with
    | none =>
      have hnil := (typeName_eq_none item).1 ht
      simp only [singletonLines, ht, true_iff]
      exact ⟨(name, item), List.mem_cons_self _ _, hnil⟩
    | some typ =>
      have hne : item ≠ Val.nil := fun e => by
        rw [(typeName_eq_none item).2 e] at ht
        cases ht
      simp only [singletonLines, ht]
      rw [ih]
      constructor
      · rintro ⟨kv, hkv, hv⟩
        exact ⟨kv, List.mem_cons_of_mem _ hkv, hv⟩
      · rintro ⟨kv, hkv, hv⟩
        rcases List.mem_cons.1 hkv with rfl | hkv
        · exact absurd hv hne
        · exact ⟨kv, hkv, hv⟩

theorem factoryLines_eq {σ : Type} (itemAddr : Nat → Nat) (r : Registry (Factory σ))
    (lines : List String) :
    ∃ fl, factoryLines itemAddr r lines = lines ++ fl ∧
      List.Forall₂ (fun kv line => ∃ rest, line = "  " ++ kv.1 ++ rest) r fl := by
  induction r generalizing lines with
  | nil => exact ⟨[], by simp [factoryLines], List.Forall₂.nil⟩
  | cons kv rest ih =>
    obtain ⟨name, item⟩ := kv
    obtain ⟨fl, hfl, hall⟩ :=
      ih (lines ++ [entryLine name (itemAddr lines.length) factoryTypeName])
    refine ⟨entryLine name (itemAddr lines.length) factoryTypeName :: fl, ?_,
      List.Forall₂.cons (entryLine_begins name _ factoryTypeName) hall⟩
    simp only [factoryLines]
    rw [hfl, List.append_assoc]
    rfl

/-! ## Registries keep their keys apart -/

theorem Registry.keys_set {α : Type} (r : Registry α) (name : String) (v : α) :
    ∀ k ∈ (r.set name v).map Prod.fst, k = name ∨ k ∈ r.map Prod.fst := by
  induction r with
  | nil => simp [Registry.set]
  | cons kv rest ih =>
    obtain ⟨k0, w⟩ := kv
    intro k hk
    by_cases h0 : k0 = name
    · simp only [Registry.set, h0, if_true, List.map_cons, List.mem_cons] at hk ⊢
      rcases hk with hk | hk
      · exact Or.inl hk
      · exact Or.inr (Or.inr hk)
    · simp only [Registry.set, h0, if_false, List.map_cons, List.mem_cons] at hk ⊢
      rcases hk with hk | hk
      · exact Or.inr (Or.inl hk)
      · rcases ih k hk with h1 | h1
        · exact Or.inl h1
        · exact Or.inr (Or.inr h1)

theorem Registry.nodup_set {α : Type} (r : Registry α) (name : String) (v : α)
    (h : (r.map Prod.fst).Nodup) : ((r.set name v).map Prod.fst).Nodup := by
  induction r with
  | nil => simp [Registry.set]
  | cons kv rest ih =>
    obtain ⟨k0, w⟩ := kv
    simp only [List.map_cons, List.nodup_cons] at h
    by_cases h0 : k0 = name
    · simp only [Registry.set, h0, if_true, List.map_cons, List.nodup_cons]
      exact ⟨h0 ▸ h.1, h.2⟩
    · simp only [Registry.set, h0, if_false, List.map_cons, List.nodup_cons]
      refine ⟨fun hmem => ?_, ih h.2⟩
      rcases Registry.keys_set rest name v k0 hmem with h1 | h1
      · exact h0 h1
      · exact h.1 h1

/-- In a state reached by registrations no registry holds a name twice. -/
theorem registered_nodup {σ : Type} (ambient : σ) (ops : List (Registration σ)) :
    ((registered ambient ops).container.singletons.map Prod.fst).Nodup ∧
    ((registered ambient ops).container.factories.map Prod.fst).Nodup := by
  have step : ∀ (ops : List (Registration σ)) (st : State σ),
      (st.container.singletons.map Prod.fst).Nodup →
      (st.container.factories.map Prod.fst).Nodup →
      ((ops.foldl (fun st op => op.apply st) st).container.singletons.map Prod.fst).Nodup ∧
      ((ops.foldl (fun st op => op.apply st) st).container.factories.map Prod.fst).Nodup := by
    intro ops
    induction ops with
    | nil => exact fun st h1 h2 => ⟨h1, h2⟩
    | cons op rest ih =>
      intro st h1 h2
      rw [List.foldl_cons]
      cases op with
      | singleton name value =>
        exact ih _ (Registry.nodup_set _ name value h1) h2
      | prototype name factory =>
        exact ih _ h1 (Registry.nodup_set _ name factory h2)
  exact step ops _ (by simp [NewContainer]) (by simp [NewContainer])

/-! ## Claims about nil values and about `String` -/

/-- C17 at its failing input: the factory of `"b"` returns a nil `*demo.B` without error.
The value is not the nil interface, so it passes the test `diInstance == nil`: `Ensure`
returns success, and the annotated fields `B0` and `B1` hold a nil pointer. -/
theorem Ensure_injects_typed_nil :
    (Ensure NewA (typedNilState (Val.pointer "sql.DB" 77) 5)).outcome = Outcome.ok ∧
    (Ensure NewA (typedNilState (Val.pointer "sql.DB" 77) 5)).fields.map
        (fun f => (f.name, decide (injectName f.tag ≠ ""), f.value.isNilEquivalent)) =
      [("Db0", true, false), ("Db1", true, false), ("B0", true, true), ("B1", true, true)] ∧
    (Ensure NewA (typedNilState (Val.pointer "sql.DB" 77) 5)).fields[2]? =
      some ⟨"B0", true, GoType.named "*demo.B", "b,prototype", Val.pointer "demo.B" 0⟩ := by
  decide

/-- C19, as stated, fails when a nil singleton value is registered: after `NewContainer()`
and `SetSingleton("db", nil)` the call `reflect.TypeOf(item).String()` panics, and `String`
returns no rendering. -/
theorem ContainerString_nil_counterexample :
    (ContainerString (fun k => 824633786960 + 16 * k)
      (registered (0 : Nat) [Registration.singleton "db" Val.nil])).1 = none := by
  decide

/-- C19, amended: in every state in which no singleton is registered with the nil interface
value (a state reached by registrations, where no registry holds a name twice, or any other
state), `String` returns a rendering: the header `"singletons:"`, one entry per singleton
binding, the header `"factories:"` and one entry per factory binding, that is
`len(singletons) + len(factories) + 2` lines, each entry beginning with two spaces and its
binding name.  `String` fails (panics) exactly when some singleton is registered with a nil
value, and in every case it leaves the registries and the rest of the state as they
were. -/
theorem ContainerString_renders {σ : Type} (itemAddr : Nat → Nat) (st : State σ) :
    ((∀ kv ∈ st.container.singletons, kv.2 ≠ Val.nil) →
      ∃ sl fl,
        StringLines itemAddr st.container =
          some ("singletons:" :: sl ++ "factories:" :: fl) ∧
        (ContainerString itemAddr st).1 =
          some ("\n".intercalate ("singletons:" :: sl ++ "factories:" :: fl)) ∧
        List.Forall₂ (fun kv line => ∃ rest, line = "  " ++ kv.1 ++ rest)
          st.container.singletons sl ∧
        List.Forall₂ (fun kv line => ∃ rest, line = "  " ++ kv.1 ++ rest)
          st.container.factories fl ∧
        ("singletons:" :: sl ++ "factories:" :: fl).length =
          st.container.singletons.length + st.container.factories.length + 2) ∧
    ((ContainerString itemAddr st).1 = none ↔
      ∃ kv ∈ st.container.singletons, kv.2 = Val.nil) ∧
    (ContainerString itemAddr st).2 = st ∧
    (∀ (ambient : σ) (ops : List (Registration σ)),
      ((registered ambient ops).container.singletons.map Prod.fst).Nodup ∧
      ((registered ambient ops).container.factories.map Prod.fst).Nodup) := by
  refine ⟨?_, ?_, rfl, registered_nodup⟩
  · intro h
    obtain ⟨sl, hsl, hs⟩ :=
      singletonLines_some itemAddr st.container.singletons ["singletons:"] h
    obtain ⟨fl, hfl, hf⟩ :=
      factoryLines_eq itemAddr st.container.factories
        (["singletons:"] ++ sl ++ ["factories:"])
    have hlines : StringLines itemAddr st.container =
        some ("singletons:" :: sl ++ "factories:" :: fl) := by
      simp only [StringLines, hsl, hfl]
      simp
    refine ⟨sl, fl, hlines, ?_, hs, hf, ?_⟩
    · simp only [ContainerString, hlines, Option.map_some']
    · have h1 := hs.length_eq
      have h2 := hf.length_eq
      simp only [List.length_cons, List.length_append]
      omega
  · simp only [ContainerString, Option.map_eq_none', StringLines]
    rw [← singletonLines_none itemAddr st.container.singletons ["singletons:"]]
    cases singletonLines itemAddr st.container.singletons ["singletons:"] <;> simp

theorem ContainerString_renders_witness :
    (∀ kv ∈ (mainState (Val.pointer "sql.DB" 77) 5).container.singletons, kv.2 ≠ Val.nil) ∧
    ∃ sl fl,
      StringLines (fun k => 824633786960 + 16 * k)
        (mainState (Val.pointer "sql.DB" 77) 5).container =
          some ("singletons:" :: sl ++ "factories:" :: fl) :=
  ⟨by decide,
    let ⟨sl, fl, h, _⟩ :=
      (ContainerString_renders (fun k => 824633786960 + 16 * k)
        (mainState (Val.pointer "sql.DB" 77) 5)).1 (by decide)
    ⟨sl, fl, h⟩⟩

/-! ## Claims about concurrent use -/

set_option maxRecDepth 100000 in
/-- C16 at its failing input: one goroutine calls `SetSingleton` while another calls
`GetSingleton`.  The reader takes no lock, so after the writer has locked the mutex and
begun its map assignment the reader reads the same map.  The same happens to the reads of
`Ensure` against `SetPrototype`.  Two registrations, which both lock, never overlap, in any
schedule. -/
theorem unlocked_read_during_write :
    ((Goroutines.start [SetSingletonSteps, GetSingletonSteps]).run [0, 0, 1]).map
        Goroutines.raced = some true ∧
    ((Goroutines.start [SetPrototypeSteps, EnsureSteps ["db", "b,prototype"]]).run
        [0, 0, 1, 1]).map Goroutines.raced = some true ∧
    (∀ n ∈ List.range 9, ∀ s ∈ schedules n,
      ((Goroutines.start [SetSingletonSteps, SetSingletonSteps]).run s).map
        Goroutines.raced ≠ some true) := by
  decide

/-! ## Claims about prototype fields -/

/-- The policy of a field is read off its tag. -/
theorem filter_prototypePolicy_tags (l₁ l₂ : List Field)
    (h : l₁.map Field.tag = l₂.map Field.tag) :
    (l₁.filter Field.prototypePolicy).map Field.tag =
      (l₂.filter Field.prototypePolicy).map Field.tag := by
  have key : ∀ l : List Field, (l.filter Field.prototypePolicy).map Field.tag =
      (l.map Field.tag).filter
        (fun tag => decide (injectName tag ≠ "") && isPrototype tag) := by
    intro l
    rw [List.filter_map]
    rfl
  rw [key l₁, key l₂, h]

/-- In a successful run, the prototype field at the end of `pre` gets its own invocation:
the factory registered under its name runs from the ambient state reached after `pre`, as
the next invocation after those for `pre`, and the field holds what it returned. -/
theorem ensureFields_invocation_at {σ : Type} [Assignability] (a : Bool)
    (pre post : List Field) (f : Field) (st : State σ)
    (h : (ensureFields a (pre ++ f :: post) st).outcome = Outcome.ok)
    (hp : f.prototypePolicy = true) :
    ∃ fac, st.container.factories.get (injectName f.tag) = some fac ∧
      (ensureFields a pre st).state.calls.length =
        st.calls.length + (pre.filter Field.prototypePolicy).length ∧
      (fac (ensureFields a pre st).state.ambient).1.2 = none ∧
      (ensureFields a (pre ++ f :: post) st).state.calls[
          st.calls.length + (pre.filter Field.prototypePolicy).length]? =
        some ⟨injectName f.tag, (fac (ensureFields a pre st).state.ambient).1.1, none⟩ ∧
      (ensureFields a (pre ++ f :: post) st).fields[pre.length]? =
        some { f with value := (fac (ensureFields a pre st).state.ambient).1.1 } := by
  obtain ⟨hpre, hrest, hget, hval⟩ := ensureFields_ok_at a pre post f st h
  obtain ⟨hn, hproto⟩ := (prototypePolicy_iff f).1 hp
  obtain ⟨he, hv⟩ := hval hn
  rcases resolve_prototype_cases f.tag (injectName f.tag) (ensureFields a pre st).state hproto
    with ⟨_, e⟩ | ⟨fac, hf, e⟩
  · rw [e] at he; cases he
  · rw [ensureFields_container] at hf
    have hlen : (ensureFields a pre st).state.calls.length =
        st.calls.length + (pre.filter Field.prototypePolicy).length := by
      rw [ensureFields_calls_ok a pre st hpre, List.length_append, List.length_map]
      have := congrArg List.length
        (filter_prototypePolicy_tags _ _ (ensureFields_tags a pre st))
      simp only [List.length_map] at this
      rw [this]
    have hvalue : (resolve f.tag (injectName f.tag) (ensureFields a pre st).state).1.1 =
        (fac (ensureFields a pre st).state.ambient).1.1 := by rw [e]; rfl
    have herr : (fac (ensureFields a pre st).state.ambient).1.2 = none := by
      rw [e] at he; exact he
    refine ⟨fac, hf, hlen, herr, ?_, ?_⟩
    · rw [ensureFields_continue a pre post f st hpre]
      simp only
      rw [ensureFields_calls_ok a (f :: post) _ hrest,
        ensureFields_set a f post _ hn he
          hv (by
            rcases ensureFields_cons_cases a f post (ensureFields a pre st).state with
              ⟨hn2, _⟩ | ⟨_, o, ho, e2, _⟩ | ⟨_, _, _, hs, _⟩
            · exact absurd hn2 hn
            · rw [e2] at hrest; exact absurd hrest ho
            · exact hs)]
      simp only
      rw [List.filter_cons_of_pos
          ((prototypePolicy_congr
            { f with value :=
              (resolve f.tag (injectName f.tag) (ensureFields a pre st).state).1.1 }
            f rfl).trans hp),
        List.map_cons, ← hlen]
      simp only
      rw [hvalue]
      exact getElem?_append_cons_length _ _ _ _ rfl
    · rw [hget, if_neg hn, hvalue]

/-- C2: `Ensure` never caches or shares prototype values.  In a successful `Ensure` the
invocations made are, in declaration order, exactly one per prototype-policy field of the
consumer, each of the factory registered under the binding name of its field; so over a
consumer with `k` prototype-policy fields naming `n` the factory registered under `n` is
invoked exactly `k` times.  The invocation for field `i` is a run of that factory of its
own, from the ambient state reached after the fields before `i`, it comes in the log right
after the invocations for those fields, and field `i` holds the value that this very run
returned. -/
theorem Ensure_prototype_invocations {σ : Type} [Assignability] (inst : Instance)
    (st : State σ) (h : (Ensure inst st).outcome = Outcome.ok) :
    ((Ensure inst st).state.calls.take st.calls.length = st.calls ∧
      ((Ensure inst st).state.calls.drop st.calls.length).map Call.name =
        (inst.fields.filter Field.prototypePolicy).map (fun f => injectName f.tag)) ∧
    (∀ n : String,
      (((Ensure inst st).state.calls.drop st.calls.length).filter
          (fun c => decide (c.name = n))).length =
        (inst.fields.filter
          (fun f => f.prototypePolicy && decide (injectName f.tag = n))).length) ∧
    (∀ (i : Nat) (f : Field), inst.fields[i]? = some f → f.prototypePolicy = true →
      ∃ fac, st.container.factories.get (injectName f.tag) = some fac ∧
        (Ensure (inst.withFields (inst.fields.take i)) st).state.calls.length =
          st.calls.length + ((inst.fields.take i).filter Field.prototypePolicy).length ∧
        (fac (Ensure (inst.withFields (inst.fields.take i)) st).state.ambient).1.2 = none ∧
        (Ensure inst st).state.calls[
            st.calls.length + ((inst.fields.take i).filter Field.prototypePolicy).length]? =
          some ⟨injectName f.tag,
            (fac (Ensure (inst.withFields (inst.fields.take i)) st).state.ambient).1.1,
            none⟩ ∧
        (Ensure inst st).fields[i]? =
          some { f with value :=
            (fac (Ensure (inst.withFields (inst.fields.take i)) st).state.ambient).1.1 }) ∧
    ((Ensure inst st).state.calls =
        st.calls ++ ((Ensure inst st).fields.filter Field.prototypePolicy).map
          (fun f => (⟨injectName f.tag, f.value, none⟩ : Call)) ∧
      ∀ n : String,
        (((Ensure inst st).state.calls.drop st.calls.length).filter
            (fun c => decide (c.name = n))).map Call.value =
          ((Ensure inst st).fields.filter
            (fun f => f.prototypePolicy && decide (injectName f.tag = n))).map
              Field.value) := by
  have hne := Ensure_ok_ne_other inst st h
  rw [Ensure_eq_ensureFields inst st hne] at h ⊢
  have key := ensureFields_calls_ok _ _ _ h
  have htags := filter_prototypePolicy_tags _ _
    (ensureFields_tags inst.addressable inst.fields st)
  have names : ((ensureFields inst.addressable inst.fields st).state.calls.drop
      st.calls.length).map Call.name =
      (inst.fields.filter Field.prototypePolicy).map (fun f => injectName f.tag) := by
    rw [key, List.drop_left, List.map_map]
    have := congrArg (List.map injectName) htags
    simp only [List.map_map] at this
    exact this
  have per_name : ∀ n : String,
      (((ensureFields inst.addressable inst.fields st).state.calls.drop
          st.calls.length).filter (fun c => decide (c.name = n))).map Call.value =
        ((ensureFields inst.addressable inst.fields st).fields.filter
          (fun f => f.prototypePolicy && decide (injectName f.tag = n))).map Field.value := by
    intro n
    rw [key, List.drop_left, List.filter_map, List.map_map, List.filter_filter]
    show List.map Field.value (List.filter
      (fun f => decide (injectName f.tag = n) && f.prototypePolicy) _) = _
    congr 1
    apply List.filter_congr
    intro x _
    exact Bool.and_comm _ _
  refine ⟨⟨?_, names⟩, ?_, ?_, key, per_name⟩
  · rw [key, List.take_left]
  · intro n
    have h1 : ∀ l : List Call, (l.filter (fun c => decide (c.name = n))).length =
        ((l.map Call.name).filter (fun m => decide (m = n))).length := by
      intro l
      rw [List.filter_map, List.length_map]
      rfl
    have h2 : (inst.fields.filter
        (fun f => f.prototypePolicy && decide (injectName f.tag = n))).length =
        (((inst.fields.filter Field.prototypePolicy).map
          (fun f => injectName f.tag)).filter (fun m => decide (m = n))).length := by
      rw [List.filter_map, List.length_map, List.filter_filter]
      congr 1
      apply List.filter_congr
      intro x _
      exact Bool.and_comm _ _
    rw [h1, names, h2]
  · intro i f hi hp
    obtain ⟨hsplit, hlen⟩ := eq_take_cons_drop inst.fields i f hi
    have := ensureFields_invocation_at inst.addressable (inst.fields.take i)
      (inst.fields.drop (i + 1)) f st (by rw [← hsplit]; exact h) hp
    rw [← hsplit, hlen] at this
    rw [Ensure_withFields inst _ st hne]
    exact this

theorem Ensure_prototype_invocations_witness :
    (Ensure NewA (mainState (Val.pointer "sql.DB" 77) 5)).outcome = Outcome.ok ∧
    ((Ensure NewA (mainState (Val.pointer "sql.DB" 77) 5)).state.calls.drop
        (mainState (Val.pointer "sql.DB" 77) 5).calls.length).map Call.name =
      (NewA.fields.filter Field.prototypePolicy).map (fun f => injectName f.tag) ∧
    (NewA.fields.filter Field.prototypePolicy).map (fun f => injectName f.tag) = ["b", "b"] ∧
    (((Ensure NewA (mainState (Val.pointer "sql.DB" 77) 5)).state.calls.drop
          (mainState (Val.pointer "sql.DB" 77) 5).calls.length).filter
        (fun c => decide (c.name = "b"))).length =
      (NewA.fields.filter
        (fun f => f.prototypePolicy && decide (injectName f.tag = "b"))).length :=
  ⟨by decide,
    (Ensure_prototype_invocations NewA (mainState (Val.pointer "sql.DB" 77) 5)
      (by decide)).1.2,
    by decide,
    (Ensure_prototype_invocations NewA (mainState (Val.pointer "sql.DB" 77) 5)
      (by decide)).2.1 "b"⟩

/-! ## Factories that call back: what happens to the registries -/

theorem reentrant_registerAll_frame {σ : Type} (ops : List (Registration σ))
    (st : Reentrant.State σ) :
    (Reentrant.registerAll ops st).ambient = st.ambient ∧
    (Reentrant.registerAll ops st).calls = st.calls := by
  induction ops generalizing st with
  | nil => exact ⟨rfl, rfl⟩
  | cons op rest ih =>
    have h := ih (Reentrant.register op st)
    cases op <;> exact h

theorem Registry.get_map_value {α β : Type} (r : Registry α) (g : α → β) (name : String) :
    Registry.get (r.map (fun kv => (kv.1, g kv.2))) name = (r.get name).map g := by
  induction r with
  | nil => rfl
  | cons kv rest ih =>
    obtain ⟨k, v⟩ := kv
    by_cases hk : k = name
    · simp [Registry.get, hk]
    · simp only [List.map_cons, Registry.get, hk, if_false]
      exact ih

theorem reentrant_GetPrototype_ofPlain {σ : Type} (name : String) (st : State σ) :
    Reentrant.GetPrototype name (Reentrant.ofPlain st) =
      ((GetPrototype name st).1, Reentrant.ofPlain (GetPrototype name st).2) := by
  unfold Reentrant.GetPrototype GetPrototype
  have hget : (Reentrant.ofPlain st).container.factories.get name =
      (st.container.factories.get name).map
        (fun fac => (⟨fac, fun _ => []⟩ : Reentrant.Closure σ)) :=
    Registry.get_map_value st.container.factories
      (fun fac => (⟨fac, fun _ => []⟩ : Reentrant.Closure σ)) name
  rw [hget]
  cases st.container.factories.get name with
  | none => rfl
  | some fac => rfl

theorem reentrant_resolve_ofPlain {σ : Type} (tag diName : String) (st : State σ) :
    Reentrant.resolve tag diName (Reentrant.ofPlain st) =
      ((resolve tag diName st).1, Reentrant.ofPlain (resolve tag diName st).2) := by
  unfold Reentrant.resolve resolve
  cases hp : isPrototype tag <;> cases hs : isSingleton tag
  · rfl
  · rfl
  · exact reentrant_GetPrototype_ofPlain diName st
  · exact reentrant_GetPrototype_ofPlain diName st

/-- On factories that make no registration the loop of this section is the loop of
`Ensure` above. -/
theorem reentrant_ensureFields_ofPlain {σ : Type} [Assignability] (a : Bool)
    (fs : List Field) (st : State σ) :
    Reentrant.ensureFields a fs (Reentrant.ofPlain st) =
      ⟨(ensureFields a fs st).outcome, (ensureFields a fs st).fields,
        Reentrant.ofPlain (ensureFields a fs st).state⟩ := by
  induction fs generalizing st with
  | nil => rfl
  | cons f rest ih =>
    have hres := reentrant_resolve_ofPlain f.tag (injectName f.tag) st
    rcases ensureFields_cons_cases a f rest st with
      ⟨hn, e⟩ | ⟨hn, o, _, e, why⟩ | ⟨hn, he, hv, hs, e⟩
    · rw [e]
      simp only [Reentrant.ensureFields, hn, if_true, ih st]
    · rw [e]
      rcases why with ⟨e1, h1, rfl⟩ | ⟨h1, h1v, rfl⟩ | ⟨h1, h1v, h1s, rfl⟩
      · simp only [Reentrant.ensureFields, hn, if_false, hres, h1]
      · simp only [Reentrant.ensureFields, hn, if_false, hres, h1, h1v, if_true]
      · simp only [Reentrant.ensureFields, hn, if_false, hres, h1, h1v, h1s]
        rfl
    · rw [e]
      simp only [Reentrant.ensureFields, hn, if_false, hres, he, hv, hs, if_true, ih]

/-- On factories that make no registration the method `Ensure` of this section is the
method `Ensure` above. -/
theorem reentrant_Ensure_ofPlain {σ : Type} [Assignability] (inst : Instance)
    (st : State σ) :
    Reentrant.Ensure inst (Reentrant.ofPlain st) =
      ⟨(Ensure inst st).outcome, (Ensure inst st).fields,
        Reentrant.ofPlain (Ensure inst st).state⟩ := by
  cases inst with
  | structPointer fs => exact reentrant_ensureFields_ofPlain true fs st
  | nilStructPointer fs => exact reentrant_ensureFields_ofPlain false fs st
  | other => rfl

/-! ## Claims about the registries during resolution -/

end DI
